import Mathlib

/-!
The cloud-census program: a monitor of the start time of minikube.

A shallow embedding of `main.go`.  The program registers one OpenCensus
measure, builds a Stackdriver exporter and then loops forever: it times
`minikube start`, prints and records the duration, sleeps and repeats.

Modelling decisions

* The process is a function from an environment (`Env`: the value of `HOME`,
  the outcome of every library call that can fail, the outcome of every
  external invocation, the readings of the clock) to the chronological list
  of actions it performs (`Event`) and the way it ends (`Res`).
* The `for` loop never returns; `mainLoop` takes the number of iterations to
  unfold and answers `Res.running` when that many iterations have completed.
* Go's `defer` is `goDefer`: the deferred call runs when the surrounding
  function returns, after the result has been evaluated.  `log.Fatal` and
  `log.Fatalf` write the message and call `os.Exit(1)`, which ends the
  process at once without running deferred calls.
* `time.Duration` is an integer count of nanoseconds and its 64-bit
  saturation (about 292 years) is not modelled.
* The measured value is carried as the exact number of seconds it stands for
  (`seconds`).  The program holds it as a `float64`; where the binary value
  matters, in the digits that `%f` prints, `float64Seconds` computes that
  `float64` as `Duration.Seconds` does, every operation rounded to nearest
  with ties to even, and `formatF` prints it.
* Log lines are modelled by their message, without the date and time that
  the standard logger puts in front.
-/

namespace CloudCensus

/-! ## Library models -/

/-- Splits a path at every slash. -/
def splitSlash : List Char → List (List Char)
  | [] => [[]]
  | c :: cs =>
    match splitSlash cs with
    | [] => [[c]]
    | p :: ps => if c = '/' then [] :: p :: ps else (c :: p) :: ps

/-- One step of lexical path cleaning, on the reversed list of the
components kept so far: empty and `.` components are dropped, `..` removes
the component before it (or is dropped at the root, or kept when nothing
precedes it in a relative path). -/
def cleanStep (rooted : Bool) (stack : List (List Char)) (comp : List Char) :
    List (List Char) :=
  if comp = [] ∨ comp = ['.'] then stack
  else if comp = ['.', '.'] then
    match stack with
    | [] => if rooted then [] else [comp]
    | top :: rest => if top = ['.', '.'] then comp :: stack else rest
  else comp :: stack

/-- Go's `filepath.Clean` on a slash-separated (Unix) path. -/
def filepathClean (p : List Char) : List Char :=
  let rooted : Bool := p.head? = some '/'
  let comps := ((splitSlash p).foldl (cleanStep rooted) []).reverse
  let body := List.intercalate ['/'] comps
  let r := if rooted then '/' :: body else body
  if r = [] then ['.'] else r

/-- Go's `filepath.Join`: the elements from the first non-empty one on are
joined with slashes and the result is cleaned; with no non-empty element the
result is the empty string. -/
def filepathJoin (elem : List String) : String :=
  match elem.dropWhile (fun e => e.data = []) with
  | [] => ""
  | es => String.mk (filepathClean (List.intercalate ['/'] (es.map String.data)))

/-- The constant `time.Second`, in nanoseconds. -/
def Second : Int := 1000000000

/-- Go's `Duration.Seconds`: whole seconds plus the fractional remainder,
`float64(d / Second) + float64(d % Second) / 1e9`, with Go's truncating
integer division. -/
def seconds (d : Int) : ℚ :=
  ((Int.tdiv d Second : Int) : ℚ) + ((Int.tmod d Second : Int) : ℚ) / 1000000000

/-- Six decimal digits of `n`, zero padded on the left. -/
def frac6 (n : Nat) : List Char :=
  [Nat.digitChar (n / 100000 % 10), Nat.digitChar (n / 10000 % 10),
   Nat.digitChar (n / 1000 % 10), Nat.digitChar (n / 100 % 10),
   Nat.digitChar (n / 10 % 10), Nat.digitChar (n % 10)]

/-- The natural number nearest to `n / d`, ties to even. -/
def roundHalfEven (n d : Nat) : Nat :=
  if 2 * (n % d) < d then n / d
  else if d < 2 * (n % d) then n / d + 1
  else if n / d % 2 = 0 then n / d else n / d + 1

/-- Binary logarithm, rounded down, with the recursion bounded by `f`. -/
def log2Fuel : Nat → Nat → Nat
  | 0, _ => 0
  | f + 1, n => if n < 2 then 0 else log2Fuel f (n / 2) + 1

/-- Binary logarithm of a positive natural number, rounded down. -/
def floorLog2 (n : Nat) : Nat := log2Fuel n n

/-- The integer `e` with `2 ^ e ≤ n / dn < 2 ^ (e + 1)`, for positive `n`
and `dn`. -/
def floorLog2Ratio (n dn : Nat) : Int :=
  if 0 ≤ (floorLog2 n : Int) - (floorLog2 dn : Int) then
    if n < dn * 2 ^ ((floorLog2 n : Int) - (floorLog2 dn : Int)).toNat then
      (floorLog2 n : Int) - (floorLog2 dn : Int) - 1
    else (floorLog2 n : Int) - (floorLog2 dn : Int)
  else
    if n * 2 ^ ((floorLog2 dn : Int) - (floorLog2 n : Int)).toNat < dn then
      (floorLog2 n : Int) - (floorLog2 dn : Int) - 1
    else (floorLog2 n : Int) - (floorLog2 dn : Int)

/-- The natural number nearest to `n / dn / 2 ^ p`, ties to even. -/
def scaledRound (n dn : Nat) (p : Int) : Nat :=
  if 0 ≤ p then roundHalfEven n (dn * 2 ^ p.toNat) else roundHalfEven (n * 2 ^ (-p).toNat) dn

/-- A finite IEEE 754 binary64 number: sign and magnitude `mant * 2 ^ exp`. -/
structure Float64 where
  neg : Bool
  mant : Nat
  exp : Int
  deriving DecidableEq

/-- The `float64` nearest to `n / dn`, ties to even, with the given sign: 53
significant bits, the unit in the last place being `2 ^ (e - 52)` for a
number in `[2 ^ e, 2 ^ (e + 1))`, and at least `2 ^ (-1074)` (subnormal
numbers).  Overflow to infinity is not modelled. -/
def Float64.round (neg : Bool) (n dn : Nat) : Float64 :=
  if n = 0 then ⟨neg, 0, 0⟩
  else ⟨neg, scaledRound n dn (max (floorLog2Ratio n dn - 52) (-1074)),
    max (floorLog2Ratio n dn - 52) (-1074)⟩

/-- Go's conversion `float64(z)` of an integer. -/
def Float64.ofInt (z : Int) : Float64 :=
  Float64.round (decide (z < 0)) z.natAbs 1

/-- The quotient of two `float64`, rounded; the divisor is not zero. -/
def Float64.div (a b : Float64) : Float64 :=
  Float64.round (a.neg != b.neg)
    (a.mant * 2 ^ (a.exp - b.exp).toNat) (b.mant * 2 ^ (b.exp - a.exp).toNat)

/-- The value of `a` in units of `2 ^ e`, for `e` at most the exponent of `a`. -/
def Float64.signed (a : Float64) (e : Int) : Int :=
  (if a.neg then -1 else 1) * ((a.mant : Int) * 2 ^ (a.exp - e).toNat)

/-- The sum of two `float64`, rounded. -/
def Float64.add (a b : Float64) : Float64 :=
  Float64.round (decide (a.signed (min a.exp b.exp) + b.signed (min a.exp b.exp) < 0))
    ((a.signed (min a.exp b.exp) + b.signed (min a.exp b.exp)).natAbs *
      2 ^ (min a.exp b.exp).toNat)
    (2 ^ (-(min a.exp b.exp)).toNat)

/-- Go's `Duration.Seconds` as the program computes it, in `float64`:
`float64(d / Second) + float64(d % Second) / 1e9`. -/
def float64Seconds (d : Int) : Float64 :=
  Float64.add (Float64.ofInt (Int.tdiv d Second))
    (Float64.div (Float64.ofInt (Int.tmod d Second)) (Float64.ofInt 1000000000))

/-- The number of millionths nearest to the magnitude of `x`, ties to even. -/
def Float64.micro (x : Float64) : Nat :=
  if 0 ≤ x.exp then x.mant * 2 ^ x.exp.toNat * 1000000
  else roundHalfEven (x.mant * 1000000) (2 ^ (-x.exp).toNat)

/-- The verb `%f` of Go's `fmt` applied to a `float64`: sign, integer part,
a point and six decimals, the exact binary value rounded to nearest, ties to
even. -/
def fmtF (x : Float64) : String :=
  String.mk ((if x.neg then ['-'] else []) ++ Nat.toDigits 10 (x.micro / 1000000) ++ ['.'] ++
    frac6 (x.micro % 1000000))

/-- The duration, in nanoseconds, of `q` seconds. -/
def nanoseconds (q : ℚ) : Int := q.num * 1000000000 / (q.den : Int)

/-- What `%f` prints for the measured value carried as `q` seconds: the
program holds the `float64` that `Duration.Seconds` computed from the
duration, and that is what is printed. -/
def formatF (q : ℚ) : String := fmtF (float64Seconds (nanoseconds q))

/-! ## The process -/

/-- An OpenCensus measure: name, description and unit. -/
structure Measure where
  name : String
  description : String
  unit : String
  deriving DecidableEq

/-- Actions of the process that the outside can observe. -/
inductive Event where
  /-- The call `view.Register` for the view of the given name. -/
  | viewRegister (name : String)
  /-- The call `stackdriver.NewExporter` with project, metric name head and
  reporting interval in nanoseconds. -/
  | newExporter (project : String) (metricHead : String) (interval : Int)
  /-- The call `trace.RegisterExporter`. -/
  | registerExporter
  /-- The call `sd.StartMetricsExporter`. -/
  | startMetricsExporter
  /-- The call `sd.StopMetricsExporter`. -/
  | stopMetricsExporter
  /-- The call `sd.Flush`. -/
  | flush
  /-- A message written by the standard logger. -/
  | logPrint (msg : String)
  /-- The call `os.Exit`. -/
  | osExit (code : Nat)
  /-- A reading of the clock (`time.Now`, `time.Since`), in nanoseconds. -/
  | clock (reading : Int)
  /-- An external invocation, `cmd.Run` of `exec.CommandContext`, which
  blocks until the child has exited. -/
  | run (path : String) (args : List String)
  /-- Text written to standard output by `fmt.Printf`. -/
  | printf (text : String)
  /-- A sample handed to `stats.Record` with the tags of the context. -/
  | record (tags : List (String × String)) (measure : String) (value : ℚ)
  /-- The call `time.Sleep` with the requested nanoseconds. -/
  | sleep (ns : Int)
  deriving DecidableEq

/-- What the process reads from the outside. -/
structure Env where
  /-- The value of `os.Getenv("HOME")`. -/
  home : String
  /-- The constant `runtime.GOOS`. -/
  goos : String
  /-- The error of `view.Register`, if any. -/
  registerErr : Option String
  /-- The error of `stackdriver.NewExporter`, if any. -/
  exporterErr : Option String
  /-- The error of `sd.StartMetricsExporter`, if any. -/
  startExporterErr : Option String
  /-- The error of the `k`-th call of `cmd.Run`, if any. -/
  runErr : Nat → Option String
  /-- The `k`-th reading of the clock, in nanoseconds. -/
  now : Nat → Int

/-- State of the process: external invocations made, clock readings taken,
and the actions performed so far, oldest first. -/
structure Sys where
  nrun : Nat
  nclock : Nat
  trace : List Event
  deriving DecidableEq

/-- How a (part of the) computation ends: it returns a value, the process
has exited with a status, or the loop is still running. -/
inductive Res (α : Type) where
  | ret (a : α) (s : Sys)
  | exit (code : Nat) (s : Sys)
  | running (s : Sys)

/-- The state a computation ended in. -/
def Res.sys {α : Type} : Res α → Sys
  | .ret _ s => s
  | .exit _ s => s
  | .running s => s

/-- Appends one action to the trace. -/
def emit (e : Event) (s : Sys) : Sys :=
  { s with trace := s.trace ++ [e] }

/-- Go's `defer`: the deferred call runs when the function returns; it does
not run when the process exits through `os.Exit`, nor while the body is
still running. -/
def goDefer {α : Type} (deferred : Sys → Sys) : Res α → Res α
  | .ret a s => .ret a (deferred s)
  | .exit c s => .exit c s
  | .running s => .running s

/-- Go's `log.Fatal` and `log.Fatalf`: the message, then `os.Exit(1)`. -/
def logFatal {α : Type} (msg : String) (s : Sys) : Res α :=
  .exit 1 (emit (.osExit 1) (emit (.logPrint msg) s))

/-- The call `cmd.Run()` of a command built by `exec.CommandContext`. -/
def cmdRun (env : Env) (path : String) (args : List String) (s : Sys) :
    Option String × Sys :=
  (env.runErr s.nrun,
   { s with nrun := s.nrun + 1, trace := s.trace ++ [Event.run path args] })

/-- The call `time.Now()`. -/
def timeNow (env : Env) (s : Sys) : Int × Sys :=
  (env.now s.nclock,
   { s with nclock := s.nclock + 1, trace := s.trace ++ [Event.clock (env.now s.nclock)] })

/-- The call `time.Since(t)`: the clock is read and `t` is subtracted. -/
def timeSince (env : Env) (t : Int) (s : Sys) : Int × Sys :=
  ((timeNow env s).1 - t, (timeNow env s).2)

/-- The measure `latencyS`. -/
def latencyS : Measure :=
  { name := "repl/start_time", description := "start time in seconds", unit := "s" }

/-- The deferred function of `minikubeStartTime`: `minikube delete -p
profile`, whose error is only logged. -/
def deleteProfile (env : Env) (minikube profile : String) (s : Sys) : Sys :=
  match cmdRun env minikube ["delete", "-p", profile] s with
  | (some err, s1) => emit (.logPrint ("error deleting: " ++ err)) s1
  | (none, s1) => s1

/-- The function `minikubeStartTime`. -/
def minikubeStartTime (env : Env) (s : Sys) : Res ℚ :=
  let minikube := filepathJoin [env.home, "minikube/out/minikube"]
  let profile := "cloud-monitoring"
  goDefer (deleteProfile env minikube profile) <|
    let s1 := emit (.logPrint "Running minikube start....") s
    let t := (timeNow env s1).1
    let s2 := (timeNow env s1).2
    match cmdRun env minikube ["start", "--driver=docker", "-p", profile] s2 with
    | (some err, s3) => logFatal err s3
    | (none, s3) => .ret (seconds (timeSince env t s3).1) (timeSince env t s3).2

/-- One pass through the body of the `for` loop of `main`. -/
def loopBody (env : Env) (tags : List (String × String)) (s : Sys) : Res Unit :=
  match minikubeStartTime env s with
  | .ret st s1 =>
    let s2 := emit (.printf ("Latency: " ++ formatF st ++ "\n")) s1
    let s3 := emit (.record tags latencyS.name st) s2
    .ret () (emit (.sleep (30 * Second)) s3)
  | .exit c s1 => .exit c s1
  | .running s1 => .running s1

/-- The `for` loop of `main`, unfolded at most `n` times. -/
def mainLoop (env : Env) (tags : List (String × String)) : Nat → Sys → Res Unit
  | 0, s => .running s
  | n + 1, s =>
    match loopBody env tags s with
    | .ret _ s1 => mainLoop env tags n s1
    | .exit c s1 => .exit c s1
    | .running s1 => .running s1

/-- The tags put into the context by `tag.New`. -/
def ctxTags (env : Env) : List (String × String) :=
  [("os", env.goos), ("driver", "docker")]

/-- The function `main`, with the loop unfolded at most `n` times. -/
def main (env : Env) (n : Nat) : Res Unit :=
  let s1 := emit (.viewRegister "minikube_performance_trace") ⟨0, 0, []⟩
  match env.registerErr with
  | some err => logFatal ("Failed to register the view: " ++ err) s1
  | none =>
    let s2 := emit (.newExporter "priya-wadhwa" "minikube_performance_trace" (60 * Second)) s1
    match env.exporterErr with
    | some err => logFatal ("Failed to create the Stackdriver exporter: " ++ err) s2
    | none =>
      goDefer (emit .flush) <|
        let s3 := emit .registerExporter s2
        let s4 := emit .startMetricsExporter s3
        match env.startExporterErr with
        | some err => logFatal ("Error starting metric exporter: " ++ err) s4
        | none => goDefer (emit .stopMetricsExporter) (mainLoop env (ctxTags env) n s4)

/-! ## Vocabulary of the properties -/

/-- The primary invocation: `minikube start --driver=docker -p cloud-monitoring`. -/
def startCall (env : Env) : Event :=
  .run (filepathJoin [env.home, "minikube/out/minikube"])
    ["start", "--driver=docker", "-p", "cloud-monitoring"]

/-- The cleanup invocation: `minikube delete -p cloud-monitoring`. -/
def deleteCall (env : Env) : Event :=
  .run (filepathJoin [env.home, "minikube/out/minikube"]) ["delete", "-p", "cloud-monitoring"]

/-- What the cleanup logs: one line when it failed, nothing otherwise. -/
def deleteLog : Option String → List Event
  | some err => [.logPrint ("error deleting: " ++ err)]
  | none => []

/-- Is the action an external invocation? -/
def Event.isRun : Event → Bool
  | .run _ _ => true
  | _ => false

/-- Is the action a sleep? -/
def Event.isSleep : Event → Bool
  | .sleep _ => true
  | _ => false

/-- Is the action a line on standard output? -/
def Event.isPrintf : Event → Bool
  | .printf _ => true
  | _ => false

/-- Is the action a recorded sample? -/
def Event.isRecord : Event → Bool
  | .record _ _ _ => true
  | _ => false

/-- Is the action an invocation of the subcommand `delete`? -/
def Event.isDelete : Event → Bool
  | .run _ ("delete" :: _) => true
  | _ => false

/-- The external invocations and the sleeps of a trace, in order. -/
def toolView (tr : List Event) : List Event :=
  tr.filter (fun e => e.isRun || e.isSleep)

/-- The number that a `float64` is. -/
def Float64.toRat (x : Float64) : ℚ :=
  (if x.neg then -1 else 1) * ((x.mant : ℚ) * 2 ^ x.exp)

/-- The number that a string of decimal digits denotes. -/
def decimalValue (cs : List Char) : Nat :=
  cs.foldl (fun a c => 10 * a + (c.toNat - 48)) 0

/-- An environment in which every call succeeds and every reading of the
clock is 45 seconds after the one before. -/
def quietEnv : Env :=
  { home := "/home/u", goos := "linux", registerErr := none, exporterErr := none,
    startExporterErr := none, runErr := fun _ => none, now := fun k => 45000000000 * k }

/-- An environment in which every call succeeds and every reading of the
clock is `step` nanoseconds after the one before. -/
def steadyEnv (step : Int) : Env :=
  { quietEnv with now := fun k => step * k }

/-- As `quietEnv`, but the `k`-th external invocation fails. -/
def failingEnv (k : Nat) : Env :=
  { quietEnv with runErr := fun i => if i = k then some "exit status 1" else none }

/-! ## Lemmas on the model -/

theorem seconds_eq (d : Int) : seconds d = (d : ℚ) / 1000000000 := by
  have h := Int.tdiv_add_tmod d Second
  have hq : ((Second * Int.tdiv d Second + Int.tmod d Second : Int) : ℚ) = (d : ℚ) := by
    rw [h]
  simp only [Second] at hq
  push_cast at hq
  unfold seconds
  simp only [Second]
  linarith

theorem seconds_nonneg (d : Int) (h : 0 ≤ d) : 0 ≤ seconds d := by
  rw [seconds_eq]
  have : (0 : ℚ) ≤ (d : ℚ) := by exact_mod_cast h
  positivity

theorem log2Fuel_spec : ∀ (f n : Nat), 0 < n → n ≤ f →
    2 ^ log2Fuel f n ≤ n ∧ n < 2 ^ (log2Fuel f n + 1) := by
  intro f
  induction f with
  | zero => intro n h0 h1; omega
  | succ f ih =>
    intro n h0 h1
    unfold log2Fuel
    by_cases h : n < 2
    · rw [if_pos h]; constructor <;> simp <;> omega
    · rw [if_neg h]
      obtain ⟨ha, hb⟩ := ih (n / 2) (by omega) (by omega)
      constructor
      · rw [pow_succ]; omega
      · rw [pow_succ]; omega

theorem floorLog2_spec (n : Nat) (h : 0 < n) :
    2 ^ floorLog2 n ≤ n ∧ n < 2 ^ (floorLog2 n + 1) :=
  log2Fuel_spec n n h (le_refl n)

theorem zpow_two_of_nonneg (p : Int) (h : 0 ≤ p) : (2 : ℚ) ^ p = ((2 ^ p.toNat : Nat) : ℚ) := by
  conv_lhs => rw [← Int.toNat_of_nonneg h]
  push_cast
  exact zpow_natCast 2 _

theorem zpow_two_of_nonpos (p : Int) (h : p ≤ 0) :
    (2 : ℚ) ^ p = 1 / ((2 ^ (-p).toNat : Nat) : ℚ) := by
  have hneg : 0 ≤ -p := by omega
  have : p = -(((-p).toNat : Nat) : Int) := by
    rw [Int.toNat_of_nonneg hneg]; ring
  conv_lhs => rw [this]
  rw [zpow_neg, zpow_natCast]
  push_cast
  simp

theorem floorLog2Ratio_spec (n dn : Nat) (hn : 0 < n) (hdn : 0 < dn) :
    (2 : ℚ) ^ floorLog2Ratio n dn ≤ (n : ℚ) / dn ∧
      (n : ℚ) / dn < 2 ^ (floorLog2Ratio n dn + 1) := by
  obtain ⟨hn1, hn2⟩ := floorLog2_spec n hn
  obtain ⟨hd1, hd2⟩ := floorLog2_spec dn hdn
  have hdq : (0 : ℚ) < dn := by exact_mod_cast hdn
  have hn1q : (2 : ℚ) ^ (floorLog2 n : Int) ≤ n := by
    rw [zpow_natCast]; exact_mod_cast hn1
  have hn2q : (n : ℚ) < 2 ^ ((floorLog2 n : Int) + 1) := by
    have : ((floorLog2 n : Int) + 1) = ((floorLog2 n + 1 : Nat) : Int) := by push_cast; ring
    rw [this, zpow_natCast]; exact_mod_cast hn2
  have hd1q : (2 : ℚ) ^ (floorLog2 dn : Int) ≤ dn := by
    rw [zpow_natCast]; exact_mod_cast hd1
  have hd2q : (dn : ℚ) < 2 ^ ((floorLog2 dn : Int) + 1) := by
    have : ((floorLog2 dn : Int) + 1) = ((floorLog2 dn + 1 : Nat) : Int) := by push_cast; ring
    rw [this, zpow_natCast]; exact_mod_cast hd2
  have h2 : (0 : ℚ) < 2 := by norm_num
  -- general bounds: 2 ^ (e0 - 1) < n / dn < 2 ^ (e0 + 1)
  have hlow : (2 : ℚ) ^ ((floorLog2 n : Int) - (floorLog2 dn : Int) - 1) ≤ (n : ℚ) / dn := by
    rw [le_div_iff₀ hdq]
    have e : (2 : ℚ) ^ ((floorLog2 n : Int) - (floorLog2 dn : Int) - 1) *
        2 ^ ((floorLog2 dn : Int) + 1) = 2 ^ (floorLog2 n : Int) := by
      rw [← zpow_add₀ (by norm_num : (2 : ℚ) ≠ 0)]; congr 1; ring
    have hpos : (0 : ℚ) < 2 ^ ((floorLog2 n : Int) - (floorLog2 dn : Int) - 1) := by positivity
    calc (2 : ℚ) ^ ((floorLog2 n : Int) - (floorLog2 dn : Int) - 1) * dn
        ≤ 2 ^ ((floorLog2 n : Int) - (floorLog2 dn : Int) - 1) *
            2 ^ ((floorLog2 dn : Int) + 1) := by
          apply mul_le_mul_of_nonneg_left (le_of_lt hd2q) (le_of_lt hpos)
      _ = 2 ^ (floorLog2 n : Int) := e
      _ ≤ n := hn1q
  have hupp : (n : ℚ) / dn < 2 ^ ((floorLog2 n : Int) - (floorLog2 dn : Int) + 1) := by
    rw [div_lt_iff₀ hdq]
    have e : (2 : ℚ) ^ ((floorLog2 n : Int) - (floorLog2 dn : Int) + 1) *
        2 ^ (floorLog2 dn : Int) = 2 ^ ((floorLog2 n : Int) + 1) := by
      rw [← zpow_add₀ (by norm_num : (2 : ℚ) ≠ 0)]; congr 1; ring
    have hpos : (0 : ℚ) < 2 ^ ((floorLog2 n : Int) - (floorLog2 dn : Int) + 1) := by positivity
    calc (n : ℚ) < 2 ^ ((floorLog2 n : Int) + 1) := hn2q
      _ = 2 ^ ((floorLog2 n : Int) - (floorLog2 dn : Int) + 1) * 2 ^ (floorLog2 dn : Int) := e.symm
      _ ≤ 2 ^ ((floorLog2 n : Int) - (floorLog2 dn : Int) + 1) * dn := by
          apply mul_le_mul_of_nonneg_left hd1q (le_of_lt hpos)
  unfold floorLog2Ratio
  by_cases h0 : 0 ≤ (floorLog2 n : Int) - (floorLog2 dn : Int)
  · rw [if_pos h0]
    have hz := zpow_two_of_nonneg _ h0
    by_cases hb : n < dn * 2 ^ ((floorLog2 n : Int) - (floorLog2 dn : Int)).toNat
    · rw [if_pos hb]
      refine ⟨hlow, ?_⟩
      have hbq : (n : ℚ) < dn * ((2 ^ ((floorLog2 n : Int) - (floorLog2 dn : Int)).toNat : Nat) : ℚ) := by
        exact_mod_cast hb
      rw [div_lt_iff₀ hdq, sub_add_cancel, hz]
      linarith
    · rw [if_neg hb]
      refine ⟨?_, hupp⟩
      have hbq : (dn : ℚ) * ((2 ^ ((floorLog2 n : Int) - (floorLog2 dn : Int)).toNat : Nat) : ℚ) ≤ n := by
        exact_mod_cast not_lt.mp hb
      rw [le_div_iff₀ hdq, hz]
      linarith
  · rw [if_neg h0]
    have hle : (floorLog2 n : Int) - (floorLog2 dn : Int) ≤ 0 := by omega
    have hz := zpow_two_of_nonpos _ hle
    have hneg : -((floorLog2 n : Int) - (floorLog2 dn : Int)) =
        (floorLog2 dn : Int) - (floorLog2 n : Int) := by ring
    rw [hneg] at hz
    have hpp : (0 : ℚ) < ((2 ^ ((floorLog2 dn : Int) - (floorLog2 n : Int)).toNat : Nat) : ℚ) := by
      positivity
    by_cases hb : n * 2 ^ ((floorLog2 dn : Int) - (floorLog2 n : Int)).toNat < dn
    · rw [if_pos hb]
      refine ⟨hlow, ?_⟩
      have hbq : (n : ℚ) * ((2 ^ ((floorLog2 dn : Int) - (floorLog2 n : Int)).toNat : Nat) : ℚ) < dn := by
        exact_mod_cast hb
      rw [div_lt_iff₀ hdq, sub_add_cancel, hz, one_div, inv_mul_eq_div, lt_div_iff₀ hpp]
      exact hbq
    · rw [if_neg hb]
      refine ⟨?_, hupp⟩
      have hbq : (dn : ℚ) ≤ n * ((2 ^ ((floorLog2 dn : Int) - (floorLog2 n : Int)).toNat : Nat) : ℚ) := by
        exact_mod_cast not_lt.mp hb
      rw [le_div_iff₀ hdq, hz, one_div, inv_mul_eq_div, div_le_iff₀ hpp]
      exact hbq

theorem roundHalfEven_spec (n d : Nat) (hd : 0 < d) :
    |((roundHalfEven n d : Nat) : ℚ) - (n : ℚ) / d| < 1 / 2 ∨
      (|((roundHalfEven n d : Nat) : ℚ) - (n : ℚ) / d| = 1 / 2 ∧ roundHalfEven n d % 2 = 0) := by
  have hdq : (0 : ℚ) < d := by exact_mod_cast hd
  have hdiv : ((n : ℚ)) = d * ((n / d : Nat) : ℚ) + ((n % d : Nat) : ℚ) := by
    exact_mod_cast (Nat.div_add_mod n d).symm
  have hr : n % d < d := Nat.mod_lt n hd
  have hrq : ((n % d : Nat) : ℚ) < d := by exact_mod_cast hr
  have hr0 : (0 : ℚ) ≤ ((n % d : Nat) : ℚ) := by positivity
  have hfrac : (n : ℚ) / d = ((n / d : Nat) : ℚ) + ((n % d : Nat) : ℚ) / d := by
    rw [hdiv]; field_simp; ring
  unfold roundHalfEven
  by_cases h1 : 2 * (n % d) < d
  · left
    rw [if_pos h1, hfrac]
    have h1q : 2 * ((n % d : Nat) : ℚ) < d := by exact_mod_cast h1
    have : ((n / d : Nat) : ℚ) - (((n / d : Nat) : ℚ) + ((n % d : Nat) : ℚ) / d) =
        -(((n % d : Nat) : ℚ) / d) := by ring
    rw [this, abs_neg, abs_of_nonneg (by positivity), div_lt_iff₀ hdq]
    linarith
  · rw [if_neg h1]
    by_cases h2 : d < 2 * (n % d)
    · left
      rw [if_pos h2, hfrac]
      have h2q : (d : ℚ) < 2 * ((n % d : Nat) : ℚ) := by exact_mod_cast h2
      have : (((n / d + 1 : Nat)) : ℚ) - (((n / d : Nat) : ℚ) + ((n % d : Nat) : ℚ) / d) =
          (d - ((n % d : Nat) : ℚ)) / d := by
        push_cast; field_simp; ring
      rw [this, abs_of_nonneg (by apply div_nonneg <;> linarith), div_lt_iff₀ hdq]
      linarith
    · rw [if_neg h2]
      have he : 2 * (n % d) = d := by omega
      have heq : 2 * ((n % d : Nat) : ℚ) = d := by exact_mod_cast he
      have hhalf : ((n % d : Nat) : ℚ) / d = 1 / 2 := by
        rw [div_eq_iff (ne_of_gt hdq)]; linarith
      by_cases h3 : n / d % 2 = 0
      · right
        rw [if_pos h3, hfrac, hhalf]
        refine ⟨?_, h3⟩
        have : ((n / d : Nat) : ℚ) - (((n / d : Nat) : ℚ) + 1 / 2) = -(1 / 2) := by ring
        rw [this, abs_neg, abs_of_nonneg (by norm_num)]
      · right
        rw [if_neg h3, hfrac, hhalf]
        refine ⟨?_, by omega⟩
        have : (((n / d + 1 : Nat)) : ℚ) - (((n / d : Nat) : ℚ) + 1 / 2) = 1 / 2 := by
          push_cast; ring
        rw [this, abs_of_nonneg (by norm_num)]

theorem scaledRound_spec (n dn : Nat) (p : Int) (hdn : 0 < dn) :
    |((scaledRound n dn p : Nat) : ℚ) - (n : ℚ) / dn / 2 ^ p| < 1 / 2 ∨
      (|((scaledRound n dn p : Nat) : ℚ) - (n : ℚ) / dn / 2 ^ p| = 1 / 2 ∧
        scaledRound n dn p % 2 = 0) := by
  have hdq : (0 : ℚ) < dn := by exact_mod_cast hdn
  unfold scaledRound
  by_cases h : 0 ≤ p
  · rw [if_pos h]
    have hv : (n : ℚ) / dn / 2 ^ p = (n : ℚ) / ((dn * 2 ^ p.toNat : Nat) : ℚ) := by
      rw [zpow_two_of_nonneg p h]; push_cast; rw [div_div]
    rw [hv]
    exact roundHalfEven_spec _ _ (by positivity)
  · rw [if_neg h]
    have hv : (n : ℚ) / dn / 2 ^ p = ((n * 2 ^ (-p).toNat : Nat) : ℚ) / (dn : ℚ) := by
      rw [zpow_two_of_nonpos p (by omega)]; push_cast; field_simp
    rw [hv]
    exact roundHalfEven_spec _ _ hdn

theorem scaledRound_le (n dn : Nat) (p : Int) (hdn : 0 < dn) :
    |((scaledRound n dn p : Nat) : ℚ) - (n : ℚ) / dn / 2 ^ p| ≤ 1 / 2 := by
  rcases scaledRound_spec n dn p hdn with h | h
  · exact le_of_lt h
  · exact le_of_eq h.1

/-- Rounding a number in the normal range changes it by at most one part in `2 ^ 53`. -/
theorem round_mag_err (neg : Bool) (n dn : Nat) (hn : 0 < n) (hdn : 0 < dn)
    (hnorm : (2 : ℚ) ^ (-1022 : Int) ≤ (n : ℚ) / dn) :
    |((Float64.round neg n dn).mant : ℚ) * 2 ^ (Float64.round neg n dn).exp - (n : ℚ) / dn| ≤
      (n : ℚ) / dn / 2 ^ 53 := by
  obtain ⟨hlo, hhi⟩ := floorLog2Ratio_spec n dn hn hdn
  have hlt : (2 : ℚ) ^ (-1022 : Int) < 2 ^ (floorLog2Ratio n dn + 1) := lt_of_le_of_lt hnorm hhi
  have he : (-1022 : Int) < floorLog2Ratio n dn + 1 :=
    (zpow_lt_zpow_iff_right₀ (by norm_num : (1 : ℚ) < 2)).mp hlt
  have hp : max (floorLog2Ratio n dn - 52) (-1074) = floorLog2Ratio n dn - 52 := by
    apply max_eq_left; omega
  unfold Float64.round
  rw [if_neg (by omega)]
  simp only [hp]
  have hs := scaledRound_le n dn (floorLog2Ratio n dn - 52) hdn
  have hpos : (0 : ℚ) < 2 ^ (floorLog2Ratio n dn - 52) := by positivity
  have hsplit : (2 : ℚ) ^ (floorLog2Ratio n dn - 52) =
      2 ^ floorLog2Ratio n dn / 2 ^ 52 := by
    rw [zpow_sub₀ (by norm_num : (2 : ℚ) ≠ 0)]; norm_num
  have key : ((scaledRound n dn (floorLog2Ratio n dn - 52) : Nat) : ℚ) *
      2 ^ (floorLog2Ratio n dn - 52) - (n : ℚ) / dn =
      (((scaledRound n dn (floorLog2Ratio n dn - 52) : Nat) : ℚ) -
        (n : ℚ) / dn / 2 ^ (floorLog2Ratio n dn - 52)) * 2 ^ (floorLog2Ratio n dn - 52) := by
    rw [sub_mul, div_mul_cancel₀ _ (ne_of_gt hpos)]
  rw [key, abs_mul, abs_of_pos hpos]
  calc |((scaledRound n dn (floorLog2Ratio n dn - 52) : Nat) : ℚ) -
        (n : ℚ) / dn / 2 ^ (floorLog2Ratio n dn - 52)| * 2 ^ (floorLog2Ratio n dn - 52)
      ≤ 1 / 2 * 2 ^ (floorLog2Ratio n dn - 52) :=
        mul_le_mul_of_nonneg_right hs (le_of_lt hpos)
    _ = 2 ^ floorLog2Ratio n dn / 2 ^ 53 := by rw [hsplit]; ring
    _ ≤ (n : ℚ) / dn / 2 ^ 53 := by
        apply div_le_div_of_nonneg_right hlo (by positivity)

theorem round_toRat_zero (neg : Bool) (dn : Nat) : (Float64.round neg 0 dn).toRat = 0 := by
  simp [Float64.round, Float64.toRat]

theorem round_toRat_err (neg : Bool) (n dn : Nat) (hn : 0 < n) (hdn : 0 < dn)
    (hnorm : (2 : ℚ) ^ (-1022 : Int) ≤ (n : ℚ) / dn) :
    |(Float64.round neg n dn).toRat - (if neg then -1 else 1) * ((n : ℚ) / dn)| ≤
      (n : ℚ) / dn / 2 ^ 53 := by
  have h := round_mag_err neg n dn hn hdn hnorm
  have hneg : (Float64.round neg n dn).neg = neg := by
    unfold Float64.round; split <;> rfl
  unfold Float64.toRat
  rw [hneg]
  cases neg
  · simpa using h
  · simp only [if_true]
    have : (-1 : ℚ) * (((Float64.round true n dn).mant : ℚ) * 2 ^ (Float64.round true n dn).exp) -
        -1 * ((n : ℚ) / dn) =
        -(((Float64.round true n dn).mant : ℚ) * 2 ^ (Float64.round true n dn).exp -
          (n : ℚ) / dn) := by ring
    rw [this, abs_neg]
    exact h

theorem abs_toRat (x : Float64) : |x.toRat| = (x.mant : ℚ) * 2 ^ x.exp := by
  have hp : (0 : ℚ) ≤ (x.mant : ℚ) * 2 ^ x.exp := by positivity
  unfold Float64.toRat
  cases x.neg
  · simp [abs_of_nonneg hp]
  · simp [abs_of_nonneg hp]

theorem tiny_le_one : (2 : ℚ) ^ (-1022 : Int) ≤ 1 :=
  zpow_le_one_of_nonpos₀ (by norm_num) (by norm_num)

theorem sign_mul_natAbs (z : Int) :
    (if decide (z < 0) = true then (-1 : ℚ) else 1) * ((z.natAbs : Nat) : ℚ) = (z : ℚ) := by
  have hc : ((z.natAbs : Nat) : ℚ) = |(z : ℚ)| := by
    rw [Nat.cast_natAbs, Int.cast_abs]
  rw [hc]
  by_cases h : z < 0
  · have hq : (z : ℚ) < 0 := by exact_mod_cast h
    simp [h, abs_of_neg hq]
  · have hq : (0 : ℚ) ≤ (z : ℚ) := by exact_mod_cast not_lt.mp h
    simp [h, abs_of_nonneg hq]

theorem ofInt_err (z : Int) : |(Float64.ofInt z).toRat - (z : ℚ)| ≤ |(z : ℚ)| / 2 ^ 53 := by
  by_cases hz : z = 0
  · subst hz
    simp [Float64.ofInt, Float64.round, Float64.toRat]
  · have hn : 0 < z.natAbs := Int.natAbs_pos.mpr hz
    have hc : ((z.natAbs : Nat) : ℚ) = |(z : ℚ)| := by
      rw [Nat.cast_natAbs, Int.cast_abs]
    have hone : (1 : ℚ) ≤ ((z.natAbs : Nat) : ℚ) := by exact_mod_cast hn
    have h := round_toRat_err (decide (z < 0)) z.natAbs 1 hn (by norm_num)
      (by simpa using le_trans tiny_le_one hone)
    simp only [Nat.cast_one, div_one] at h
    rw [sign_mul_natAbs, hc] at h
    exact h

theorem pow_toNat_ratio (k : Int) :
    ((2 ^ k.toNat : Nat) : ℚ) / ((2 ^ (-k).toNat : Nat) : ℚ) = 2 ^ k := by
  by_cases h : 0 ≤ k
  · have h0 : (-k).toNat = 0 := Int.toNat_eq_zero.mpr (by omega)
    rw [h0, zpow_two_of_nonneg k h]
    simp
  · have h0 : k.toNat = 0 := Int.toNat_eq_zero.mpr (by omega)
    rw [h0, zpow_two_of_nonpos k (by omega)]
    simp

theorem sign_xor (a b : Bool) :
    (if (a != b) = true then (-1 : ℚ) else 1) =
      (if a = true then (-1 : ℚ) else 1) * (if b = true then (-1 : ℚ) else 1) := by
  cases a <;> cases b <;> simp

theorem div_err (a b : Float64) (hb : b.mant ≠ 0)
    (hnorm : a.mant = 0 ∨ (2 : ℚ) ^ (-1022 : Int) ≤ |a.toRat / b.toRat|) :
    |(Float64.div a b).toRat - a.toRat / b.toRat| ≤ |a.toRat / b.toRat| / 2 ^ 53 := by
  have hbq : (0 : ℚ) < (b.mant : ℚ) := by exact_mod_cast Nat.pos_of_ne_zero hb
  have hfrac : ((a.mant * 2 ^ (a.exp - b.exp).toNat : Nat) : ℚ) /
      ((b.mant * 2 ^ (b.exp - a.exp).toNat : Nat) : ℚ) =
      ((a.mant : ℚ) * 2 ^ a.exp) / ((b.mant : ℚ) * 2 ^ b.exp) := by
    have hk := pow_toNat_ratio (a.exp - b.exp)
    rw [neg_sub] at hk
    have h2 : (2 : ℚ) ^ (a.exp - b.exp) = 2 ^ a.exp / 2 ^ b.exp :=
      zpow_sub₀ (by norm_num) _ _
    push_cast at hk ⊢
    rw [mul_div_mul_comm, hk, h2, mul_div_mul_comm]
  have hquot : a.toRat / b.toRat =
      (if (a.neg != b.neg) = true then (-1 : ℚ) else 1) *
        (((a.mant : ℚ) * 2 ^ a.exp) / ((b.mant : ℚ) * 2 ^ b.exp)) := by
    rw [sign_xor]
    unfold Float64.toRat
    cases a.neg <;> cases b.neg <;> simp <;> ring
  have habs : |a.toRat / b.toRat| = ((a.mant : ℚ) * 2 ^ a.exp) / ((b.mant : ℚ) * 2 ^ b.exp) := by
    rw [abs_div, abs_toRat, abs_toRat]
  by_cases ha : a.mant = 0
  · have h0 : a.toRat = 0 := by simp [Float64.toRat, ha]
    simp [Float64.div, ha, round_toRat_zero, h0]
  · have hnorm2 : (2 : ℚ) ^ (-1022 : Int) ≤ |a.toRat / b.toRat| := by
      rcases hnorm with h | h
      · exact absurd h ha
      · exact h
    have hn : 0 < a.mant * 2 ^ (a.exp - b.exp).toNat :=
      Nat.mul_pos (Nat.pos_of_ne_zero ha) (by positivity)
    have hdn : 0 < b.mant * 2 ^ (b.exp - a.exp).toNat :=
      Nat.mul_pos (Nat.pos_of_ne_zero hb) (by positivity)
    have h := round_toRat_err (a.neg != b.neg) (a.mant * 2 ^ (a.exp - b.exp).toNat)
      (b.mant * 2 ^ (b.exp - a.exp).toNat) hn hdn (by rw [hfrac, ← habs]; exact hnorm2)
    rw [hfrac] at h
    rw [habs, hquot]
    exact h

theorem signed_cast (a : Float64) (e : Int) (he : e ≤ a.exp) :
    ((a.signed e : Int) : ℚ) * 2 ^ e = a.toRat := by
  unfold Float64.signed Float64.toRat
  have hz := zpow_two_of_nonneg (a.exp - e) (by omega)
  have hsplit : (2 : ℚ) ^ a.exp = 2 ^ (a.exp - e) * 2 ^ e := by
    rw [← zpow_add₀ (by norm_num : (2 : ℚ) ≠ 0)]; congr 1; ring
  rw [hsplit, hz]
  cases a.neg <;> push_cast <;> simp <;> ring

theorem add_err (a b : Float64)
    (hnorm : a.toRat + b.toRat = 0 ∨ (2 : ℚ) ^ (-1022 : Int) ≤ |a.toRat + b.toRat|) :
    |(Float64.add a b).toRat - (a.toRat + b.toRat)| ≤ |a.toRat + b.toRat| / 2 ^ 53 := by
  have hsum : ((a.signed (min a.exp b.exp) + b.signed (min a.exp b.exp) : Int) : ℚ) *
      2 ^ (min a.exp b.exp) = a.toRat + b.toRat := by
    push_cast
    rw [add_mul, signed_cast a _ (min_le_left _ _), signed_cast b _ (min_le_right _ _)]
  have hpos : (0 : ℚ) < 2 ^ (min a.exp b.exp) := by positivity
  set S : Int := a.signed (min a.exp b.exp) + b.signed (min a.exp b.exp) with hS
  have hfrac : ((S.natAbs * 2 ^ (min a.exp b.exp).toNat : Nat) : ℚ) /
      ((2 ^ (-(min a.exp b.exp)).toNat : Nat) : ℚ) = |a.toRat + b.toRat| := by
    have hk := pow_toNat_ratio (min a.exp b.exp)
    have hc : ((S.natAbs : Nat) : ℚ) = |(S : ℚ)| := by
      rw [Nat.cast_natAbs, Int.cast_abs]
    rw [← hsum, abs_mul, abs_of_pos hpos, ← hk, ← hc]
    push_cast
    rw [mul_div_assoc]
  have hsign : (if decide (S < 0) = true then (-1 : ℚ) else 1) * |a.toRat + b.toRat| =
      a.toRat + b.toRat := by
    rw [← hsum, abs_mul, abs_of_pos hpos, ← mul_assoc]
    have hc : ((S.natAbs : Nat) : ℚ) = |(S : ℚ)| := by
      rw [Nat.cast_natAbs, Int.cast_abs]
    rw [← hc, sign_mul_natAbs]
  unfold Float64.add
  rw [← hS]
  by_cases h0 : S = 0
  · have hz : a.toRat + b.toRat = 0 := by rw [← hsum, h0]; simp
    rw [h0, hz]
    simp [round_toRat_zero]
  · have hne : a.toRat + b.toRat ≠ 0 := by
      rw [← hsum]
      have : ((S : Int) : ℚ) ≠ 0 := by exact_mod_cast h0
      exact mul_ne_zero this (ne_of_gt hpos)
    have hnorm2 : (2 : ℚ) ^ (-1022 : Int) ≤ |a.toRat + b.toRat| := by
      rcases hnorm with h | h
      · exact absurd h hne
      · exact h
    have hn : 0 < S.natAbs * 2 ^ (min a.exp b.exp).toNat :=
      Nat.mul_pos (Int.natAbs_pos.mpr h0) (by positivity)
    have h := round_toRat_err (decide (S < 0)) (S.natAbs * 2 ^ (min a.exp b.exp).toNat)
      (2 ^ (-(min a.exp b.exp)).toNat) hn (by positivity) (by rw [hfrac]; exact hnorm2)
    rw [hfrac, hsign] at h
    exact h

theorem compose_mid_pos (s f A N B D : ℚ) (hs : 0 ≤ s) (hf : 0 ≤ f)
    (hA : |A - s| ≤ s / 2 ^ 53) (hN : |N - f| ≤ f / 2 ^ 53)
    (hB : |B - 1000000000| ≤ 1000000000 / 2 ^ 53)
    (hD : |D - N / B| ≤ |N / B| / 2 ^ 53) :
    (s + f / 1000000000) * (1 - 5 / 2 ^ 53) ≤ A + D ∧
      A + D ≤ (s + f / 1000000000) * (1 + 5 / 2 ^ 53) := by
  obtain ⟨hA1, hA2⟩ := abs_le.mp hA
  obtain ⟨hN1, hN2⟩ := abs_le.mp hN
  obtain ⟨hB1, hB2⟩ := abs_le.mp hB
  have hBpos : 0 < B := by norm_num at hB1 ⊢; linarith
  have hN0 : 0 ≤ N := by
    have : 0 ≤ f - f / 2 ^ 53 := by
      have : f / 2 ^ 53 ≤ f := div_le_self hf (by norm_num)
      linarith
    linarith
  have hr0 : 0 ≤ N / B := div_nonneg hN0 (le_of_lt hBpos)
  rw [abs_of_nonneg hr0] at hD
  obtain ⟨hD1, hD2⟩ := abs_le.mp hD
  set g : ℚ := f / 1000000000 with hg
  have hg0 : 0 ≤ g := by positivity
  have hfg : f = g * 1000000000 := by rw [hg]; field_simp
  have hBlow : 0 ≤ B - 1000000000 * (1 - 1 / 2 ^ 53) := by linarith
  have hBupp : 0 ≤ 1000000000 * (1 + 1 / 2 ^ 53) - B := by linarith
  have hr_upp : N / B ≤ g * (1 + 3 / 2 ^ 53) := by
    rw [div_le_iff₀ hBpos]
    have := mul_nonneg hg0 hBlow
    norm_num at this hN2 hfg ⊢
    nlinarith
  have hr_low : g * (1 - 3 / 2 ^ 53) ≤ N / B := by
    rw [le_div_iff₀ hBpos]
    have := mul_nonneg hg0 hBupp
    norm_num at this hN1 hfg ⊢
    nlinarith
  constructor
  · norm_num at hA1 hD1 hr_low ⊢
    nlinarith
  · norm_num at hA2 hD2 hr_upp ⊢
    nlinarith

theorem compose_pos (s f A N B D X : ℚ) (hs : 0 ≤ s) (hf : 0 ≤ f)
    (hA : |A - s| ≤ s / 2 ^ 53) (hN : |N - f| ≤ f / 2 ^ 53)
    (hB : |B - 1000000000| ≤ 1000000000 / 2 ^ 53)
    (hD : |D - N / B| ≤ |N / B| / 2 ^ 53)
    (hX : |X - (A + D)| ≤ |A + D| / 2 ^ 53) :
    |X - (s + f / 1000000000)| ≤ (s + f / 1000000000) / 2 ^ 50 := by
  obtain ⟨h1, h2⟩ := compose_mid_pos s f A N B D hs hf hA hN hB hD
  have hq0 : 0 ≤ s + f / 1000000000 := by positivity
  have hAD0 : 0 ≤ A + D := by
    have : 0 ≤ (s + f / 1000000000) * (1 - 5 / 2 ^ 53) := mul_nonneg hq0 (by norm_num)
    linarith
  rw [abs_of_nonneg hAD0] at hX
  obtain ⟨hX1, hX2⟩ := abs_le.mp hX
  rw [abs_le]
  constructor
  · norm_num at h1 hX1 ⊢
    linarith
  · norm_num at h2 hX2 ⊢
    linarith

theorem tiny_le_small : (2 : ℚ) ^ (-1022 : Int) ≤ 1 / 8000000000 := by
  have h1 : (2 : ℚ) ^ (-1022 : Int) ≤ 2 ^ (-33 : Int) :=
    zpow_le_zpow_right₀ (by norm_num) (by norm_num)
  have h2 : (2 : ℚ) ^ (-33 : Int) ≤ 1 / 8000000000 := by
    rw [zpow_neg]; norm_num
  exact le_trans h1 h2

theorem toRat_eq_zero_of_mant (x : Float64) (h : x.mant = 0) : x.toRat = 0 := by
  simp [Float64.toRat, h]

theorem abs_sign_mul (ε x : ℚ) (hε : ε = 1 ∨ ε = -1) : |ε * x| = |x| := by
  rcases hε with h | h <;> subst h <;> simp

theorem one_le_sign_mul (ε : ℚ) (hε : ε = 1 ∨ ε = -1) (z : Int) (h0 : 0 ≤ ε * (z : ℚ))
    (hz : z ≠ 0) : (1 : ℚ) ≤ ε * (z : ℚ) := by
  have h1 : (1 : Int) ≤ |z| := Int.one_le_abs hz
  have h2 : (1 : ℚ) ≤ |(z : ℚ)| := by exact_mod_cast h1
  rw [← abs_sign_mul ε _ hε, abs_of_nonneg h0] at h2
  exact h2

/-- The error of the `float64` computation `float64(s) + float64(f) / 1e9`
for integers `s` and `f` of the same sign (`ε` is that sign). -/
theorem float64Seconds_err_sign (ε : ℚ) (hε : ε = 1 ∨ ε = -1) (s f : Int)
    (hs : 0 ≤ ε * (s : ℚ)) (hf : 0 ≤ ε * (f : ℚ)) :
    |(Float64.add (Float64.ofInt s)
        (Float64.div (Float64.ofInt f) (Float64.ofInt 1000000000))).toRat -
        ((s : ℚ) + (f : ℚ) / 1000000000)| ≤ |(s : ℚ) + (f : ℚ) / 1000000000| / 2 ^ 50 := by
  have hA := ofInt_err s
  have hN := ofInt_err f
  have hB := ofInt_err 1000000000
  rw [← abs_sign_mul ε _ hε, mul_sub, ← abs_sign_mul ε (s : ℚ) hε, abs_of_nonneg hs] at hA
  rw [← abs_sign_mul ε _ hε, mul_sub, ← abs_sign_mul ε (f : ℚ) hε, abs_of_nonneg hf] at hN
  have hBc : ((1000000000 : Int) : ℚ) = 1000000000 := by norm_num
  rw [hBc, abs_of_nonneg (by norm_num : (0 : ℚ) ≤ 1000000000)] at hB
  obtain ⟨hB1, hB2⟩ := abs_le.mp hB
  have hBpos : 0 < (Float64.ofInt 1000000000).toRat := by norm_num at hB1 ⊢; linarith
  have hBmant : (Float64.ofInt 1000000000).mant ≠ 0 := by
    intro h0
    rw [toRat_eq_zero_of_mant _ h0] at hBpos
    exact lt_irrefl _ hBpos
  have hquot : ε * ((Float64.ofInt f).toRat / (Float64.ofInt 1000000000).toRat) =
      ε * (Float64.ofInt f).toRat / (Float64.ofInt 1000000000).toRat := by ring
  -- the quotient is zero or in the normal range
  have hDnorm : (Float64.ofInt f).mant = 0 ∨
      (2 : ℚ) ^ (-1022 : Int) ≤ |(Float64.ofInt f).toRat / (Float64.ofInt 1000000000).toRat| := by
    by_cases hf0 : f = 0
    · left; subst hf0; simp [Float64.ofInt, Float64.round]
    · right
      have hf1 := one_le_sign_mul ε hε f hf hf0
      obtain ⟨hN1, _⟩ := abs_le.mp hN
      have hNlow : (1 : ℚ) / 2 ≤ ε * (Float64.ofInt f).toRat := by
        norm_num at hN1 ⊢; linarith
      have hBupp : (Float64.ofInt 1000000000).toRat ≤ 4000000000 := by
        norm_num at hB2 ⊢; linarith
      rw [← abs_sign_mul ε _ hε, hquot,
        abs_of_nonneg (div_nonneg (by linarith) (le_of_lt hBpos))]
      refine le_trans tiny_le_small ?_
      rw [le_div_iff₀ hBpos]
      linarith
  have hD := div_err (Float64.ofInt f) (Float64.ofInt 1000000000) hBmant hDnorm
  rw [← abs_sign_mul ε _ hε, mul_sub, hquot,
    ← abs_sign_mul ε ((Float64.ofInt f).toRat / _) hε, hquot] at hD
  have hmid := compose_mid_pos _ _ _ _ _ _ hs hf hA hN hB hD
  have hsum : ε * (Float64.ofInt s).toRat +
      ε * (Float64.div (Float64.ofInt f) (Float64.ofInt 1000000000)).toRat =
      ε * ((Float64.ofInt s).toRat +
        (Float64.div (Float64.ofInt f) (Float64.ofInt 1000000000)).toRat) := by ring
  have hq : ε * (s : ℚ) + ε * (f : ℚ) / 1000000000 =
      ε * ((s : ℚ) + (f : ℚ) / 1000000000) := by ring
  have hq0 : 0 ≤ ε * (s : ℚ) + ε * (f : ℚ) / 1000000000 := by positivity
  -- the sum is zero or in the normal range
  have hXnorm : (Float64.ofInt s).toRat +
        (Float64.div (Float64.ofInt f) (Float64.ofInt 1000000000)).toRat = 0 ∨
      (2 : ℚ) ^ (-1022 : Int) ≤ |(Float64.ofInt s).toRat +
        (Float64.div (Float64.ofInt f) (Float64.ofInt 1000000000)).toRat| := by
    by_cases h0 : s = 0 ∧ f = 0
    · left
      obtain ⟨h1, h2⟩ := h0
      subst h1; subst h2
      simp [Float64.ofInt, Float64.round, Float64.div, Float64.toRat]
    · right
      have hqlow : (1 : ℚ) / 1000000000 ≤ ε * (s : ℚ) + ε * (f : ℚ) / 1000000000 := by
        by_cases hs0 : s = 0
        · have hf1 := one_le_sign_mul ε hε f hf (by tauto)
          have : (1 : ℚ) / 1000000000 ≤ ε * (f : ℚ) / 1000000000 :=
            div_le_div_of_nonneg_right hf1 (by norm_num)
          linarith
        · have hs1 := one_le_sign_mul ε hε s hs hs0
          have : (0 : ℚ) ≤ ε * (f : ℚ) / 1000000000 := by positivity
          linarith
      have hlow := hmid.1
      have hpos : (0 : ℚ) ≤ ε * (Float64.ofInt s).toRat +
          ε * (Float64.div (Float64.ofInt f) (Float64.ofInt 1000000000)).toRat := by
        have : (0 : ℚ) ≤ (ε * (s : ℚ) + ε * (f : ℚ) / 1000000000) * (1 - 5 / 2 ^ 53) :=
          mul_nonneg hq0 (by norm_num)
        linarith
      rw [← abs_sign_mul ε _ hε, ← hsum, abs_of_nonneg hpos]
      refine le_trans tiny_le_small ?_
      norm_num at hlow hqlow ⊢
      linarith
  have hX := add_err (Float64.ofInt s)
    (Float64.div (Float64.ofInt f) (Float64.ofInt 1000000000)) hXnorm
  rw [← abs_sign_mul ε _ hε, mul_sub, ← hsum,
    ← abs_sign_mul ε ((Float64.ofInt s).toRat + _) hε, ← hsum] at hX
  have h := compose_pos _ _ _ _ _ _ _ hs hf hA hN hB hD hX
  rw [← abs_sign_mul ε _ hε, mul_sub, ← abs_sign_mul ε ((s : ℚ) + _) hε, ← hq,
    abs_of_nonneg hq0]
  exact h

theorem neg_tmod (a b : Int) : (-a).tmod b = -(a.tmod b) := by
  have h1 := Int.tdiv_add_tmod (-a) b
  have h2 := Int.tdiv_add_tmod a b
  rw [Int.neg_tdiv, mul_neg] at h1
  linarith

/-- The `float64` that `Duration.Seconds` computes differs from the exact
number of seconds by at most one part in `2 ^ 50`. -/
theorem float64Seconds_err (d : Int) :
    |(float64Seconds d).toRat - (d : ℚ) / 1000000000| ≤ |(d : ℚ) / 1000000000| / 2 ^ 50 := by
  have hsplit : (d : ℚ) / 1000000000 =
      ((Int.tdiv d Second : Int) : ℚ) + ((Int.tmod d Second : Int) : ℚ) / 1000000000 := by
    have h := Int.tdiv_add_tmod d Second
    have hq : ((Second * Int.tdiv d Second + Int.tmod d Second : Int) : ℚ) = (d : ℚ) := by
      rw [h]
    simp only [Second] at hq ⊢
    push_cast at hq
    rw [← hq]
    field_simp
    ring
  rw [hsplit]
  unfold float64Seconds
  by_cases hd : 0 ≤ d
  · apply float64Seconds_err_sign 1 (Or.inl rfl)
    · rw [one_mul]; exact_mod_cast Int.tdiv_nonneg hd (by decide)
    · rw [one_mul]; exact_mod_cast Int.tmod_nonneg _ hd
  · have hnd : 0 ≤ -d := by omega
    have h1 : 0 ≤ (-d).tdiv Second := Int.tdiv_nonneg hnd (by decide)
    have h2 : 0 ≤ (-d).tmod Second := Int.tmod_nonneg _ hnd
    rw [Int.neg_tdiv] at h1
    rw [neg_tmod] at h2
    apply float64Seconds_err_sign (-1) (Or.inr rfl)
    · have : (0 : ℚ) ≤ ((-(d.tdiv Second) : Int) : ℚ) := by exact_mod_cast h1
      push_cast at this; linarith
    · have : (0 : ℚ) ≤ ((-(d.tmod Second) : Int) : ℚ) := by exact_mod_cast h2
      push_cast at this; linarith

theorem nanoseconds_div (d : Int) : nanoseconds ((d : ℚ) / 1000000000) = d := by
  unfold nanoseconds
  set q : ℚ := (d : ℚ) / 1000000000 with hq
  have hden : (q.den : Int) ≠ 0 := by exact_mod_cast q.den_nz
  have h1 : q * (q.den : ℚ) = (q.num : ℚ) := Rat.mul_den_eq_num q
  have h2 : ((q.num * 1000000000 : Int) : ℚ) = ((d * (q.den : Int) : Int) : ℚ) := by
    push_cast
    rw [← h1, hq]
    ring
  have h3 : q.num * 1000000000 = d * (q.den : Int) := by exact_mod_cast h2
  rw [h3]
  exact Int.mul_ediv_cancel d hden

theorem digitChar_spec : ∀ k, k < 10 →
    (Nat.digitChar k).isDigit = true ∧ (Nat.digitChar k).toNat - 48 = k := by
  decide

theorem frac6_length (n : Nat) : (frac6 n).length = 6 := rfl

theorem frac6_isDigit (n : Nat) : ∀ c ∈ frac6 n, c.isDigit = true := by
  intro c hc
  simp only [frac6, List.mem_cons, List.mem_singleton, List.not_mem_nil, or_false] at hc
  rcases hc with h | h | h | h | h | h <;> rw [h] <;>
    exact (digitChar_spec _ (Nat.mod_lt _ (by decide))).1

theorem decimalValue_frac6 (n : Nat) (h : n < 1000000) : decimalValue (frac6 n) = n := by
  simp only [decimalValue, frac6, List.foldl]
  rw [(digitChar_spec _ (Nat.mod_lt (n / 100000) (by decide))).2,
    (digitChar_spec _ (Nat.mod_lt (n / 10000) (by decide))).2,
    (digitChar_spec _ (Nat.mod_lt (n / 1000) (by decide))).2,
    (digitChar_spec _ (Nat.mod_lt (n / 100) (by decide))).2,
    (digitChar_spec _ (Nat.mod_lt (n / 10) (by decide))).2,
    (digitChar_spec _ (Nat.mod_lt n (by decide))).2]
  omega

theorem micro_spec (x : Float64) :
    |((x.micro : Nat) : ℚ) - |x.toRat| * 1000000| < 1 / 2 ∨
      (|((x.micro : Nat) : ℚ) - |x.toRat| * 1000000| = 1 / 2 ∧ x.micro % 2 = 0) := by
  rw [abs_toRat]
  unfold Float64.micro
  by_cases h : 0 ≤ x.exp
  · left
    rw [if_pos h]
    have hz : (2 : ℚ) ^ x.exp = ((2 ^ x.exp.toNat : Nat) : ℚ) := by
      conv_lhs => rw [← Int.toNat_of_nonneg h]
      push_cast
      exact zpow_natCast 2 _
    rw [hz]
    push_cast
    have : (x.mant : ℚ) * 2 ^ x.exp.toNat * 1000000 - (x.mant : ℚ) * 2 ^ x.exp.toNat * 1000000 = 0 := by
      ring
    rw [this]
    norm_num
  · rw [if_neg h]
    have hneg : 0 ≤ -x.exp := by omega
    have hz : (2 : ℚ) ^ x.exp = 1 / ((2 ^ (-x.exp).toNat : Nat) : ℚ) := by
      have : x.exp = -(((-x.exp).toNat : Nat) : Int) := by
        rw [Int.toNat_of_nonneg hneg]; ring
      conv_lhs => rw [this]
      rw [zpow_neg, zpow_natCast]
      push_cast
      simp
    have hval : (x.mant : ℚ) * 2 ^ x.exp * 1000000 =
        ((x.mant * 1000000 : Nat) : ℚ) / ((2 ^ (-x.exp).toNat : Nat) : ℚ) := by
      rw [hz]; push_cast; ring
    rw [hval]
    exact roundHalfEven_spec _ _ (by positivity)

theorem foldl_toDigitsCore : ∀ (fuel n : Nat) (ds : List Char), n < fuel →
    (Nat.toDigitsCore 10 fuel n ds).foldl (fun a c => 10 * a + (c.toNat - 48)) 0 =
      ds.foldl (fun a c => 10 * a + (c.toNat - 48)) n := by
  intro fuel
  induction fuel with
  | zero => intro n ds h; omega
  | succ fuel ih =>
    intro n ds h
    have hdig := (digitChar_spec (n % 10) (Nat.mod_lt n (by decide))).2
    unfold Nat.toDigitsCore
    by_cases h0 : n / 10 = 0
    · simp only [h0, if_true, List.foldl_cons, hdig]
      have : 10 * 0 + n % 10 = n := by omega
      rw [this]
    · simp only [h0, if_false]
      rw [ih (n / 10) _ (by omega)]
      simp only [List.foldl_cons, hdig]
      have : 10 * (n / 10) + n % 10 = n := by omega
      rw [this]

theorem decimalValue_toDigits (n : Nat) : decimalValue (Nat.toDigits 10 n) = n := by
  unfold decimalValue Nat.toDigits
  rw [foldl_toDigitsCore (n + 1) n [] (by omega)]
  rfl

theorem isDigit_toDigitsCore : ∀ (fuel n : Nat) (ds : List Char),
    (∀ c ∈ ds, c.isDigit = true) → ∀ c ∈ Nat.toDigitsCore 10 fuel n ds, c.isDigit = true := by
  intro fuel
  induction fuel with
  | zero => intro n ds hds c hc; exact hds c (by simpa [Nat.toDigitsCore] using hc)
  | succ fuel ih =>
    intro n ds hds c hc
    have hdig := (digitChar_spec (n % 10) (Nat.mod_lt n (by decide))).1
    have hds2 : ∀ c ∈ Nat.digitChar (n % 10) :: ds, c.isDigit = true := by
      intro c hc
      rcases List.mem_cons.mp hc with h | h
      · rw [h]; exact hdig
      · exact hds c h
    unfold Nat.toDigitsCore at hc
    by_cases h0 : n / 10 = 0
    · simp only [h0, if_true] at hc
      exact hds2 c hc
    · simp only [h0, if_false] at hc
      exact ih (n / 10) _ hds2 c hc

theorem isDigit_toDigits (n : Nat) : ∀ c ∈ Nat.toDigits 10 n, c.isDigit = true :=
  isDigit_toDigitsCore (n + 1) n [] (by simp)

/-- The sign of the `float64` is the sign of the duration. -/
theorem float64Seconds_neg (d : Int) : (float64Seconds d).neg = true ↔ d < 0 := by
  by_cases hd : d = 0
  · subst hd
    constructor
    · intro h; exact absurd h (by decide)
    · intro h; exact absurd h (by decide)
  · have herr := float64Seconds_err d
    have hmag : (0 : ℚ) ≤ ((float64Seconds d).mant : ℚ) * 2 ^ (float64Seconds d).exp := by
      positivity
    have hsmall : |(d : ℚ) / 1000000000| / 2 ^ 50 < |(d : ℚ) / 1000000000| := by
      have hq : (d : ℚ) / 1000000000 ≠ 0 := by
        have : (d : ℚ) ≠ 0 := by exact_mod_cast hd
        exact div_ne_zero this (by norm_num)
      have hpos : 0 < |(d : ℚ) / 1000000000| := abs_pos.mpr hq
      exact div_lt_self hpos (by norm_num)
    obtain ⟨h1, h2⟩ := abs_le.mp herr
    constructor
    · intro hneg
      by_contra hnot
      have hdpos : (0 : ℚ) < (d : ℚ) := by
        have : 0 < d := by omega
        exact_mod_cast this
      have hq : (0 : ℚ) < (d : ℚ) / 1000000000 := by positivity
      rw [abs_of_pos hq] at hsmall h1
      have hx : (float64Seconds d).toRat ≤ 0 := by
        unfold Float64.toRat
        rw [hneg]
        simp only [if_true]
        linarith
      linarith
    · intro hlt
      by_contra hnot
      have hneg : (float64Seconds d).neg = false := by
        cases h : (float64Seconds d).neg
        · rfl
        · exact absurd h hnot
      have hdneg : (d : ℚ) < 0 := by exact_mod_cast hlt
      have hq : (d : ℚ) / 1000000000 < 0 := div_neg_of_neg_of_pos hdneg (by norm_num)
      rw [abs_of_neg hq] at hsmall h2
      have hx : 0 ≤ (float64Seconds d).toRat := by
        unfold Float64.toRat
        rw [hneg]
        simp only [Bool.false_eq_true, if_false, one_mul]
        exact hmag
      linarith

set_option maxRecDepth 4000 in
theorem formatF_examples :
    formatF (seconds 45000000000) = "45.000000" ∧
      formatF (seconds 270500) = "0.000271" ∧
      formatF (seconds 45000002500) = "45.000003" ∧
      formatF (seconds 7812500) = "0.007812" ∧
      formatF (seconds (-1)) = "-0.000000" := by
  simp only [seconds_eq, formatF, nanoseconds_div]
  decide

theorem minikubeStartTime_of_fail (env : Env) (s : Sys) (e : String)
    (h : env.runErr s.nrun = some e) :
    minikubeStartTime env s = .exit 1
      ⟨s.nrun + 1, s.nclock + 1,
        s.trace ++ [.logPrint "Running minikube start....", .clock (env.now s.nclock),
          startCall env, .logPrint e, .osExit 1]⟩ := by
  simp [minikubeStartTime, goDefer, cmdRun, timeNow, emit, logFatal, startCall, h]

theorem minikubeStartTime_of_ok (env : Env) (s : Sys) (h : env.runErr s.nrun = none) :
    minikubeStartTime env s =
      .ret (seconds (env.now (s.nclock + 1) - env.now s.nclock))
        ⟨s.nrun + 2, s.nclock + 2,
          s.trace ++ [.logPrint "Running minikube start....", .clock (env.now s.nclock),
            startCall env, .clock (env.now (s.nclock + 1)), deleteCall env] ++
            deleteLog (env.runErr (s.nrun + 1))⟩ := by
  cases hd : env.runErr (s.nrun + 1) <;>
    simp [minikubeStartTime, goDefer, cmdRun, timeNow, timeSince, emit, deleteProfile,
      startCall, deleteCall, deleteLog, h, hd]

theorem loopBody_of_fail (env : Env) (tags : List (String × String)) (s : Sys) (e : String)
    (h : env.runErr s.nrun = some e) :
    loopBody env tags s = .exit 1
      ⟨s.nrun + 1, s.nclock + 1,
        s.trace ++ [.logPrint "Running minikube start....", .clock (env.now s.nclock),
          startCall env, .logPrint e, .osExit 1]⟩ := by
  simp [loopBody, minikubeStartTime_of_fail env s e h]

theorem loopBody_of_ok (env : Env) (tags : List (String × String)) (s : Sys)
    (h : env.runErr s.nrun = none) :
    loopBody env tags s = .ret ()
      ⟨s.nrun + 2, s.nclock + 2,
        s.trace ++ [.logPrint "Running minikube start....", .clock (env.now s.nclock),
            startCall env, .clock (env.now (s.nclock + 1)), deleteCall env] ++
          deleteLog (env.runErr (s.nrun + 1)) ++
          [.printf ("Latency: " ++
              formatF (seconds (env.now (s.nclock + 1) - env.now s.nclock)) ++ "\n"),
            .record tags "repl/start_time"
              (seconds (env.now (s.nclock + 1) - env.now s.nclock)),
            .sleep (30 * Second)]⟩ := by
  simp [loopBody, minikubeStartTime_of_ok env s h, emit, latencyS]

theorem mainLoop_succ_of_fail (env : Env) (tags : List (String × String)) (n : Nat) (s : Sys)
    (e : String) (h : env.runErr s.nrun = some e) :
    mainLoop env tags (n + 1) s = .exit 1
      ⟨s.nrun + 1, s.nclock + 1,
        s.trace ++ [.logPrint "Running minikube start....", .clock (env.now s.nclock),
          startCall env, .logPrint e, .osExit 1]⟩ := by
  simp [mainLoop, loopBody_of_fail env tags s e h]

theorem mainLoop_succ_of_ok (env : Env) (tags : List (String × String)) (n : Nat) (s : Sys)
    (h : env.runErr s.nrun = none) :
    mainLoop env tags (n + 1) s = mainLoop env tags n
      ⟨s.nrun + 2, s.nclock + 2,
        s.trace ++ [.logPrint "Running minikube start....", .clock (env.now s.nclock),
            startCall env, .clock (env.now (s.nclock + 1)), deleteCall env] ++
          deleteLog (env.runErr (s.nrun + 1)) ++
          [.printf ("Latency: " ++
              formatF (seconds (env.now (s.nclock + 1) - env.now s.nclock)) ++ "\n"),
            .record tags "repl/start_time"
              (seconds (env.now (s.nclock + 1) - env.now s.nclock)),
            .sleep (30 * Second)]⟩ := by
  simp [mainLoop, loopBody_of_ok env tags s h]

/-- The loop never returns: it is still running or the process has exited. -/
theorem goDefer_mainLoop (env : Env) (tags : List (String × String)) (f : Sys → Sys) :
    ∀ (n : Nat) (s : Sys), goDefer f (mainLoop env tags n s) = mainLoop env tags n s := by
  intro n
  induction n with
  | zero => intro s; rfl
  | succ n ih =>
    intro s
    cases h : env.runErr s.nrun with
    | none => rw [mainLoop_succ_of_ok env tags n s h]; exact ih _
    | some e => rw [mainLoop_succ_of_fail env tags n s e h]; rfl

theorem main_of_registerErr (env : Env) (n : Nat) (e : String)
    (h : env.registerErr = some e) :
    main env n = .exit 1
      ⟨0, 0, [.viewRegister "minikube_performance_trace",
        .logPrint ("Failed to register the view: " ++ e), .osExit 1]⟩ := by
  simp [main, logFatal, emit, h]

theorem main_of_exporterErr (env : Env) (n : Nat) (e : String)
    (h1 : env.registerErr = none) (h : env.exporterErr = some e) :
    main env n = .exit 1
      ⟨0, 0, [.viewRegister "minikube_performance_trace",
        .newExporter "priya-wadhwa" "minikube_performance_trace" (60 * Second),
        .logPrint ("Failed to create the Stackdriver exporter: " ++ e), .osExit 1]⟩ := by
  simp [main, logFatal, emit, h1, h]

theorem main_of_startExporterErr (env : Env) (n : Nat) (e : String)
    (h1 : env.registerErr = none) (h2 : env.exporterErr = none)
    (h : env.startExporterErr = some e) :
    main env n = .exit 1
      ⟨0, 0, [.viewRegister "minikube_performance_trace",
        .newExporter "priya-wadhwa" "minikube_performance_trace" (60 * Second),
        .registerExporter, .startMetricsExporter,
        .logPrint ("Error starting metric exporter: " ++ e), .osExit 1]⟩ := by
  simp [main, logFatal, emit, goDefer, h1, h2, h]

theorem main_of_ready (env : Env) (n : Nat)
    (h1 : env.registerErr = none) (h2 : env.exporterErr = none)
    (h3 : env.startExporterErr = none) :
    main env n = mainLoop env (ctxTags env) n
      ⟨0, 0, [.viewRegister "minikube_performance_trace",
        .newExporter "priya-wadhwa" "minikube_performance_trace" (60 * Second),
        .registerExporter, .startMetricsExporter]⟩ := by
  simp [main, emit, h1, h2, h3, goDefer_mainLoop]

theorem toolView_deleteLog (o : Option String) : toolView (deleteLog o) = [] := by
  cases o <;> rfl

theorem toolView_append (a b : List Event) : toolView (a ++ b) = toolView a ++ toolView b := by
  simp [toolView]

/-- The invocations and sleeps of the loop: complete rounds of start, delete
and sleep, followed by at most one start that failed. -/
theorem toolView_mainLoop (env : Env) (tags : List (String × String)) :
    ∀ (n : Nat) (s : Sys), ∃ (k : Nat) (rest : List Event),
      toolView (mainLoop env tags n s).sys.trace =
        toolView s.trace ++
          (List.replicate k [startCall env, deleteCall env, Event.sleep (30 * Second)]).flatten ++
          rest ∧
      (rest = [] ∨ rest = [startCall env]) := by
  intro n
  induction n with
  | zero => intro s; exact ⟨0, [], by simp [mainLoop, Res.sys], Or.inl rfl⟩
  | succ n ih =>
    intro s
    cases h : env.runErr s.nrun with
    | some e =>
      refine ⟨0, [startCall env], ?_, Or.inr rfl⟩
      rw [mainLoop_succ_of_fail env tags n s e h]
      simp [Res.sys, toolView, startCall, Event.isRun, Event.isSleep]
    | none =>
      rw [mainLoop_succ_of_ok env tags n s h]
      obtain ⟨k, rest, hk, hrest⟩ := ih
        ⟨s.nrun + 2, s.nclock + 2,
          s.trace ++ [.logPrint "Running minikube start....", .clock (env.now s.nclock),
              startCall env, .clock (env.now (s.nclock + 1)), deleteCall env] ++
            deleteLog (env.runErr (s.nrun + 1)) ++
            [.printf ("Latency: " ++
                formatF (seconds (env.now (s.nclock + 1) - env.now s.nclock)) ++ "\n"),
              .record tags "repl/start_time"
                (seconds (env.now (s.nclock + 1) - env.now s.nclock)),
              .sleep (30 * Second)]⟩
      refine ⟨k + 1, rest, ?_, hrest⟩
      rw [hk]
      simp only [toolView_append, toolView_deleteLog, List.replicate_succ, List.flatten_cons]
      simp [toolView, startCall, deleteCall, Event.isRun, Event.isSleep]

theorem toolView_main (env : Env) (n : Nat) : ∃ (k : Nat) (rest : List Event),
    toolView (main env n).sys.trace =
      (List.replicate k [startCall env, deleteCall env, Event.sleep (30 * Second)]).flatten ++
        rest ∧
    (rest = [] ∨ rest = [startCall env]) := by
  cases h1 : env.registerErr with
  | some e =>
    rw [main_of_registerErr env n e h1]
    exact ⟨0, [], by simp [Res.sys, toolView, Event.isRun, Event.isSleep], Or.inl rfl⟩
  | none =>
    cases h2 : env.exporterErr with
    | some e =>
      rw [main_of_exporterErr env n e h1 h2]
      exact ⟨0, [], by simp [Res.sys, toolView, Event.isRun, Event.isSleep], Or.inl rfl⟩
    | none =>
      cases h3 : env.startExporterErr with
      | some e =>
        rw [main_of_startExporterErr env n e h1 h2 h3]
        exact ⟨0, [], by simp [Res.sys, toolView, Event.isRun, Event.isSleep], Or.inl rfl⟩
      | none =>
        rw [main_of_ready env n h1 h2 h3]
        obtain ⟨k, rest, hk, hrest⟩ := toolView_mainLoop env (ctxTags env) n
          ⟨0, 0, [.viewRegister "minikube_performance_trace",
            .newExporter "priya-wadhwa" "minikube_performance_trace" (60 * Second),
            .registerExporter, .startMetricsExporter]⟩
        refine ⟨k, rest, ?_, hrest⟩
        rw [hk]
        simp [toolView, Event.isRun, Event.isSleep]

theorem flush_not_mem_deleteLog (o : Option String) : Event.flush ∉ deleteLog o := by
  cases o <;> simp [deleteLog]

/-- The loop adds no `Flush` to the trace. -/
theorem flush_not_mem_mainLoop (env : Env) (tags : List (String × String)) :
    ∀ (n : Nat) (s : Sys), Event.flush ∉ s.trace →
      Event.flush ∉ (mainLoop env tags n s).sys.trace := by
  intro n
  induction n with
  | zero => intro s hs; simpa [mainLoop, Res.sys] using hs
  | succ n ih =>
    intro s hs
    cases h : env.runErr s.nrun with
    | some e =>
      rw [mainLoop_succ_of_fail env tags n s e h]
      simp [Res.sys, startCall, hs]
    | none =>
      rw [mainLoop_succ_of_ok env tags n s h]
      apply ih
      simp [startCall, deleteCall, hs, flush_not_mem_deleteLog]

/-- The deferred `Flush` of `main` never runs: the loop does not return and
every other way out of `main` is `os.Exit`. -/
theorem flush_never_runs (env : Env) (n : Nat) : Event.flush ∉ (main env n).sys.trace := by
  cases h1 : env.registerErr with
  | some e => rw [main_of_registerErr env n e h1]; simp [Res.sys]
  | none =>
    cases h2 : env.exporterErr with
    | some e => rw [main_of_exporterErr env n e h1 h2]; simp [Res.sys]
    | none =>
      cases h3 : env.startExporterErr with
      | some e => rw [main_of_startExporterErr env n e h1 h2 h3]; simp [Res.sys]
      | none =>
        rw [main_of_ready env n h1 h2 h3]
        exact flush_not_mem_mainLoop env (ctxTags env) n _ (by simp)

/-! ## The claims -/

/-- C1: in an iteration whose primary invocation returns an error the process
ends there.  From any state of the loop, `minikubeStartTime` does not return
but exits with status 1, and so does the loop however far it is unfolded; the
actions of the iteration are exactly the log line, the clock reading, the
start invocation, the fatal log of the error and `os.Exit(1)`: no sample, no
`Latency:` line, no delete invocation, no sleep and no further start. -/
theorem start_failure_ends_process (env : Env) (tags : List (String × String)) (s : Sys)
    (e : String) (n : Nat) (h : env.runErr s.nrun = some e) :
    minikubeStartTime env s = .exit 1
        ⟨s.nrun + 1, s.nclock + 1,
          s.trace ++ [.logPrint "Running minikube start....", .clock (env.now s.nclock),
            .run (filepathJoin [env.home, "minikube/out/minikube"])
              ["start", "--driver=docker", "-p", "cloud-monitoring"],
            .logPrint e, .osExit 1]⟩ ∧
      mainLoop env tags (n + 1) s = .exit 1
        ⟨s.nrun + 1, s.nclock + 1,
          s.trace ++ [.logPrint "Running minikube start....", .clock (env.now s.nclock),
            .run (filepathJoin [env.home, "minikube/out/minikube"])
              ["start", "--driver=docker", "-p", "cloud-monitoring"],
            .logPrint e, .osExit 1]⟩ :=
  ⟨minikubeStartTime_of_fail env s e h, mainLoop_succ_of_fail env tags n s e h⟩

theorem start_failure_ends_process_witness :
    (failingEnv 2).runErr 2 = some "exit status 1" ∧
      mainLoop (failingEnv 2) [] 4 ⟨2, 2, []⟩ = .exit 1
        ⟨3, 3, [.logPrint "Running minikube start....", .clock 90000000000,
          .run "/home/u/minikube/out/minikube"
            ["start", "--driver=docker", "-p", "cloud-monitoring"],
          .logPrint "exit status 1", .osExit 1]⟩ :=
  ⟨rfl, (start_failure_ends_process (failingEnv 2) [] ⟨2, 2, []⟩ "exit status 1" 3 rfl).2⟩

/-- C2 (the code at the failing input): when the first primary invocation
fails, the process exits after the start invocation and the trace holds no
delete invocation at all; the deferred cleanup was registered but
`os.Exit` does not run deferred calls. -/
theorem no_cleanup_after_failed_start :
    main (failingEnv 0) 1 = .exit 1
        ⟨1, 1, [.viewRegister "minikube_performance_trace",
          .newExporter "priya-wadhwa" "minikube_performance_trace" 60000000000,
          .registerExporter, .startMetricsExporter,
          .logPrint "Running minikube start....", .clock 0,
          .run "/home/u/minikube/out/minikube"
            ["start", "--driver=docker", "-p", "cloud-monitoring"],
          .logPrint "exit status 1", .osExit 1]⟩ ∧
      ((main (failingEnv 0) 1).sys.trace.filter Event.isDelete).length = 0 := by
  have h : main (failingEnv 0) 1 = .exit 1
        ⟨1, 1, [.viewRegister "minikube_performance_trace",
          .newExporter "priya-wadhwa" "minikube_performance_trace" 60000000000,
          .registerExporter, .startMetricsExporter,
          .logPrint "Running minikube start....", .clock 0,
          .run "/home/u/minikube/out/minikube"
            ["start", "--driver=docker", "-p", "cloud-monitoring"],
          .logPrint "exit status 1", .osExit 1]⟩ := by
    rfl
  refine ⟨h, ?_⟩
  rw [h]
  decide

/-- C3: in an iteration whose primary invocation succeeds and whose cleanup
invocation fails with error `e`, the failure is only logged.
`minikubeStartTime` returns the duration between the two clock readings, the
same value it returns in the environment that differs only in that the
cleanup succeeds; the iteration goes on to print and record that value and
to sleep 30 seconds, and the loop continues with the next iteration instead
of exiting. -/
theorem cleanup_failure_only_logged (env : Env) (tags : List (String × String)) (s : Sys)
    (e : String) (n : Nat) (h1 : env.runErr s.nrun = none)
    (h2 : env.runErr (s.nrun + 1) = some e) :
    minikubeStartTime env s =
        .ret (seconds (env.now (s.nclock + 1) - env.now s.nclock))
          ⟨s.nrun + 2, s.nclock + 2,
            s.trace ++ [.logPrint "Running minikube start....", .clock (env.now s.nclock),
              startCall env, .clock (env.now (s.nclock + 1)), deleteCall env,
              .logPrint ("error deleting: " ++ e)]⟩ ∧
      minikubeStartTime
          { env with runErr := fun k => if k = s.nrun + 1 then none else env.runErr k } s =
        .ret (seconds (env.now (s.nclock + 1) - env.now s.nclock))
          ⟨s.nrun + 2, s.nclock + 2,
            s.trace ++ [.logPrint "Running minikube start....", .clock (env.now s.nclock),
              startCall env, .clock (env.now (s.nclock + 1)), deleteCall env]⟩ ∧
      mainLoop env tags (n + 1) s = mainLoop env tags n
        ⟨s.nrun + 2, s.nclock + 2,
          s.trace ++ [.logPrint "Running minikube start....", .clock (env.now s.nclock),
            startCall env, .clock (env.now (s.nclock + 1)), deleteCall env,
            .logPrint ("error deleting: " ++ e),
            .printf ("Latency: " ++
              formatF (seconds (env.now (s.nclock + 1) - env.now s.nclock)) ++ "\n"),
            .record tags "repl/start_time"
              (seconds (env.now (s.nclock + 1) - env.now s.nclock)),
            .sleep (30 * Second)]⟩ := by
  refine ⟨?_, ?_, ?_⟩
  · rw [minikubeStartTime_of_ok env s h1, h2]
    simp [deleteLog]
  · rw [minikubeStartTime_of_ok _ s (by simp [h1])]
    simp [deleteLog, startCall, deleteCall]
  · rw [mainLoop_succ_of_ok env tags n s h1, h2]
    simp [deleteLog]

theorem cleanup_failure_only_logged_witness :
    (failingEnv 1).runErr 0 = none ∧ (failingEnv 1).runErr 1 = some "exit status 1" ∧
      mainLoop (failingEnv 1) [] 1 ⟨0, 0, []⟩ = .running
        ⟨2, 2, [.logPrint "Running minikube start....", .clock 0,
          startCall (failingEnv 1), .clock 45000000000, deleteCall (failingEnv 1),
          .logPrint "error deleting: exit status 1",
          .printf ("Latency: " ++ formatF (seconds (45000000000 - 0)) ++ "\n"),
          .record [] "repl/start_time" (seconds (45000000000 - 0)),
          .sleep (30 * Second)]⟩ :=
  ⟨rfl, rfl,
    (cleanup_failure_only_logged (failingEnv 1) [] ⟨0, 0, []⟩ "exit status 1" 0 rfl rfl).2.2⟩

/-- C4: when the primary invocation succeeds, `minikubeStartTime` returns
the difference, in seconds, between the clock reading taken right after the
start invocation and the one taken right before it.  Both readings precede
the delete invocation and no reading follows it, so the time of the cleanup
is not part of the value; the value is the one recorded as the sample; and
it is not negative when the clock is monotone. -/
theorem duration_is_elapsed_start_time (env : Env) (tags : List (String × String)) (s : Sys)
    (h : env.runErr s.nrun = none) :
    minikubeStartTime env s =
        .ret (((env.now (s.nclock + 1) - env.now s.nclock : Int) : ℚ) / 1000000000)
          ⟨s.nrun + 2, s.nclock + 2,
            s.trace ++ [.logPrint "Running minikube start....", .clock (env.now s.nclock),
              startCall env, .clock (env.now (s.nclock + 1)), deleteCall env] ++
              deleteLog (env.runErr (s.nrun + 1))⟩ ∧
      Event.record tags "repl/start_time"
          (((env.now (s.nclock + 1) - env.now s.nclock : Int) : ℚ) / 1000000000) ∈
        (loopBody env tags s).sys.trace ∧
      (Monotone env.now →
        (0 : ℚ) ≤ ((env.now (s.nclock + 1) - env.now s.nclock : Int) : ℚ) / 1000000000) := by
  refine ⟨?_, ?_, ?_⟩
  · rw [minikubeStartTime_of_ok env s h, seconds_eq]
  · rw [loopBody_of_ok env tags s h, seconds_eq]
    simp [Res.sys]
  · intro hm
    have h0 : env.now s.nclock ≤ env.now (s.nclock + 1) := hm (Nat.le_succ _)
    have h1 : (0 : ℚ) ≤ ((env.now (s.nclock + 1) - env.now s.nclock : Int) : ℚ) := by
      exact_mod_cast sub_nonneg.mpr h0
    positivity

theorem duration_is_elapsed_start_time_witness :
    quietEnv.runErr 0 = none ∧
      minikubeStartTime quietEnv ⟨0, 0, []⟩ =
        .ret (((45000000000 * ((0 + 1 : Nat) : Int) - 45000000000 * ((0 : Nat) : Int) : Int) : ℚ)
            / 1000000000)
          ⟨2, 2, [.logPrint "Running minikube start....", .clock 0,
            startCall quietEnv, .clock 45000000000, deleteCall quietEnv]⟩ :=
  ⟨rfl, (duration_is_elapsed_start_time quietEnv [] ⟨0, 0, []⟩ rfl).1⟩

/-- C5: in every run, however far the loop is unfolded, the external
invocations and the sleeps of the trace form complete rounds of start,
delete and one sleep of 30 seconds, followed by at most one start (the one
that failed).  So exactly one sleep, of 30 seconds, lies between a cleanup
and the next primary invocation, and every primary invocation but the first
comes directly after that sleep. -/
theorem one_sleep_between_iterations (env : Env) (n : Nat) :
    ∃ (k : Nat) (rest : List Event),
      ((main env n).sys.trace.filter (fun e => e.isRun || e.isSleep)) =
        (List.replicate k
          [Event.run (filepathJoin [env.home, "minikube/out/minikube"])
              ["start", "--driver=docker", "-p", "cloud-monitoring"],
            Event.run (filepathJoin [env.home, "minikube/out/minikube"])
              ["delete", "-p", "cloud-monitoring"],
            Event.sleep 30000000000]).flatten ++ rest ∧
      (rest = [] ∨
        rest = [Event.run (filepathJoin [env.home, "minikube/out/minikube"])
          ["start", "--driver=docker", "-p", "cloud-monitoring"]]) :=
  toolView_main env n

/-- C6: in an iteration whose primary invocation succeeds with duration `d`
the actions added to the trace hold exactly one line on standard output,
`Latency: ` followed by the text of `d` and a newline, and exactly one
recorded sample, of the measure `repl/start_time` and of that same value
`d`.  The text of `d` is its `%f` form: a minus sign when `d` is negative,
the decimal numeral of the integer part, a point, and exactly six decimal
digits, which together denote the number of millionths `m` nearest (ties to
even) to the magnitude of the `float64` that the program holds for `d`; that
`float64` is within one part in `2 ^ 50` of `d`.  When `d` is 45 the line is
`Latency: 45.000000`. -/
theorem latency_printed_and_recorded (env : Env) (tags : List (String × String)) (s : Sys)
    (h : env.runErr s.nrun = none) :
    ∃ (d : ℚ) (added : List Event),
      d = ((env.now (s.nclock + 1) - env.now s.nclock : Int) : ℚ) / 1000000000 ∧
      (loopBody env tags s).sys.trace = s.trace ++ added ∧
      added.filter Event.isPrintf = [.printf ("Latency: " ++ formatF d ++ "\n")] ∧
      added.filter Event.isRecord = [.record tags latencyS.name d] ∧
      (∃ (m : Nat) (ip fp : List Char),
        formatF d = String.mk ((if d < 0 then ['-'] else []) ++ ip ++ ['.'] ++ fp) ∧
        ip = Nat.toDigits 10 (m / 1000000) ∧
        (∀ c ∈ ip, c.isDigit = true) ∧ decimalValue ip = m / 1000000 ∧
        fp.length = 6 ∧ (∀ c ∈ fp, c.isDigit = true) ∧ decimalValue fp = m % 1000000 ∧
        (|(m : ℚ) -
              |(float64Seconds (env.now (s.nclock + 1) - env.now s.nclock)).toRat| * 1000000| <
            1 / 2 ∨
          (|(m : ℚ) -
              |(float64Seconds (env.now (s.nclock + 1) - env.now s.nclock)).toRat| * 1000000| =
            1 / 2 ∧ m % 2 = 0)) ∧
        |(float64Seconds (env.now (s.nclock + 1) - env.now s.nclock)).toRat - d| ≤
          |d| / 2 ^ 50) ∧
      (d = 45 → added.filter Event.isPrintf = [.printf "Latency: 45.000000\n"]) := by
  have hp : ([.logPrint "Running minikube start....", .clock (env.now s.nclock),
        startCall env, .clock (env.now (s.nclock + 1)), deleteCall env] ++
        deleteLog (env.runErr (s.nrun + 1)) : List Event).filter Event.isPrintf = [] := by
    cases env.runErr (s.nrun + 1) <;> rfl
  have hr : ([.logPrint "Running minikube start....", .clock (env.now s.nclock),
        startCall env, .clock (env.now (s.nclock + 1)), deleteCall env] ++
        deleteLog (env.runErr (s.nrun + 1)) : List Event).filter Event.isRecord = [] := by
    cases env.runErr (s.nrun + 1) <;> rfl
  have hline : ∀ d : ℚ,
      ([.logPrint "Running minikube start....", .clock (env.now s.nclock),
          startCall env, .clock (env.now (s.nclock + 1)), deleteCall env] ++
        deleteLog (env.runErr (s.nrun + 1)) ++
        [.printf ("Latency: " ++ formatF d ++ "\n"), .record tags "repl/start_time" d,
          .sleep (30 * Second)] : List Event).filter Event.isPrintf =
        [.printf ("Latency: " ++ formatF d ++ "\n")] := by
    intro d
    rw [List.filter_append, hp]
    rfl
  have hfmt : formatF (seconds (env.now (s.nclock + 1) - env.now s.nclock)) =
      fmtF (float64Seconds (env.now (s.nclock + 1) - env.now s.nclock)) := by
    rw [seconds_eq, formatF, nanoseconds_div]
  have hsign : (seconds (env.now (s.nclock + 1) - env.now s.nclock) < 0) ↔
      (float64Seconds (env.now (s.nclock + 1) - env.now s.nclock)).neg = true := by
    rw [float64Seconds_neg, seconds_eq]
    constructor
    · intro hlt
      by_contra hnot
      have h0 : (0 : ℚ) ≤ ((env.now (s.nclock + 1) - env.now s.nclock : Int) : ℚ) := by
        exact_mod_cast not_lt.mp hnot
      have : (0 : ℚ) ≤
          ((env.now (s.nclock + 1) - env.now s.nclock : Int) : ℚ) / 1000000000 := by
        positivity
      linarith
    · intro hlt
      have h0 : ((env.now (s.nclock + 1) - env.now s.nclock : Int) : ℚ) < 0 := by
        exact_mod_cast hlt
      exact div_neg_of_neg_of_pos h0 (by norm_num)
  refine ⟨seconds (env.now (s.nclock + 1) - env.now s.nclock),
    [.logPrint "Running minikube start....", .clock (env.now s.nclock),
        startCall env, .clock (env.now (s.nclock + 1)), deleteCall env] ++
      deleteLog (env.runErr (s.nrun + 1)) ++
      [.printf ("Latency: " ++
          formatF (seconds (env.now (s.nclock + 1) - env.now s.nclock)) ++ "\n"),
        .record tags "repl/start_time" (seconds (env.now (s.nclock + 1) - env.now s.nclock)),
        .sleep (30 * Second)], seconds_eq _, ?_, hline _, ?_, ?_, ?_⟩
  · rw [loopBody_of_ok env tags s h]
    simp [Res.sys]
  · rw [List.filter_append, hr]
    rfl
  · refine ⟨(float64Seconds (env.now (s.nclock + 1) - env.now s.nclock)).micro,
      Nat.toDigits 10
        ((float64Seconds (env.now (s.nclock + 1) - env.now s.nclock)).micro / 1000000),
      frac6 ((float64Seconds (env.now (s.nclock + 1) - env.now s.nclock)).micro % 1000000),
      ?_, rfl, isDigit_toDigits _, decimalValue_toDigits _, frac6_length _, frac6_isDigit _,
      decimalValue_frac6 _ (Nat.mod_lt _ (by decide)), micro_spec _, ?_⟩
    · rw [hfmt, fmtF]
      by_cases hneg : (float64Seconds (env.now (s.nclock + 1) - env.now s.nclock)).neg = true
      · rw [if_pos hneg, if_pos (hsign.mpr hneg)]
      · rw [if_neg hneg, if_neg (fun hlt => hneg (hsign.mp hlt))]
    · rw [seconds_eq]
      exact float64Seconds_err _
  · intro h45
    rw [hline, h45]
    decide

set_option maxRecDepth 4000 in
theorem latency_printed_and_recorded_witness :
    (steadyEnv 45000002500).runErr 0 = none ∧
      Event.printf "Latency: 45.000003\n" ∈
        (loopBody (steadyEnv 45000002500) [] ⟨0, 0, []⟩).sys.trace ∧
      Event.record [] "repl/start_time" (45000002500 / 1000000000) ∈
        (loopBody (steadyEnv 45000002500) [] ⟨0, 0, []⟩).sys.trace := by
  obtain ⟨d, added, hd, htr, hpf, hrec, _, _⟩ :=
    latency_printed_and_recorded (steadyEnv 45000002500) [] ⟨0, 0, []⟩ rfl
  have hd2 : d = ((45000002500 : Int) : ℚ) / 1000000000 := by
    rw [hd]
    norm_num [steadyEnv, quietEnv]
  have hf : formatF d = "45.000003" := by
    rw [hd2, formatF, nanoseconds_div]
    decide
  have hp : Event.printf "Latency: 45.000003\n" ∈ added.filter Event.isPrintf := by
    rw [hpf, hf]
    exact List.mem_singleton.mpr rfl
  have hr : Event.record [] "repl/start_time" (45000002500 / 1000000000) ∈
      added.filter Event.isRecord := by
    rw [hrec, hd2]
    apply List.mem_singleton.mpr
    simp [latencyS]
  refine ⟨rfl, ?_, ?_⟩
  · rw [htr]
    exact List.mem_append_right _ (List.mem_filter.mp hp).1
  · rw [htr]
    exact List.mem_append_right _ (List.mem_filter.mp hr).1

/-- C7: when registering the view or constructing the exporter fails, the
process exits with status 1 before the loop: no external invocation has been
made, and the trace holds no invocation and no recorded sample; its last
action is `os.Exit(1)`. -/
theorem setup_failure_is_fatal (env : Env) (n : Nat)
    (h : env.registerErr ≠ none ∨ env.exporterErr ≠ none) :
    ∃ s : Sys, main env n = .exit 1 s ∧ s.nrun = 0 ∧
      s.trace.filter (fun e => e.isRun || e.isRecord) = [] ∧
      s.trace.getLast? = some (.osExit 1) := by
  cases h1 : env.registerErr with
  | some e =>
    exact ⟨_, main_of_registerErr env n e h1, rfl, rfl, rfl⟩
  | none =>
    cases h2 : env.exporterErr with
    | some e =>
      exact ⟨_, main_of_exporterErr env n e h1 h2, rfl, rfl, rfl⟩
    | none =>
      rcases h with h | h
      · exact absurd h1 h
      · exact absurd h2 h

theorem setup_failure_is_fatal_witness :
    (({ quietEnv with exporterErr := some "no credentials" } : Env).registerErr ≠ none ∨
        ({ quietEnv with exporterErr := some "no credentials" } : Env).exporterErr ≠ none) ∧
      ∃ s : Sys, main { quietEnv with exporterErr := some "no credentials" } 3 = .exit 1 s ∧
        s.nrun = 0 ∧ s.trace.filter (fun e => e.isRun || e.isRecord) = [] ∧
        s.trace.getLast? = some (.osExit 1) :=
  ⟨Or.inr (by simp [quietEnv]),
    setup_failure_is_fatal { quietEnv with exporterErr := some "no credentials" } 3
      (Or.inr (by simp [quietEnv]))⟩

/-- C8 (the code at the failing inputs): with the exporter constructed, a
first iteration that recorded one sample and a second whose primary
invocation fails, the process exits with status 1 and `Flush` is not in the
trace; likewise when `StartMetricsExporter` fails.  The deferred `Flush` is
skipped by `os.Exit`. -/
theorem flush_skipped_on_fatal_exit :
    ((∃ s : Sys, main (failingEnv 2) 2 = .exit 1 s) ∧
        ((main (failingEnv 2) 2).sys.trace.filter Event.isRecord).length = 1 ∧
        Event.flush ∉ (main (failingEnv 2) 2).sys.trace) ∧
      (main { quietEnv with startExporterErr := some "dial failed" } 1 = .exit 1
          ⟨0, 0, [.viewRegister "minikube_performance_trace",
            .newExporter "priya-wadhwa" "minikube_performance_trace" 60000000000,
            .registerExporter, .startMetricsExporter,
            .logPrint "Error starting metric exporter: dial failed", .osExit 1]⟩ ∧
        Event.flush ∉
          (main { quietEnv with startExporterErr := some "dial failed" } 1).sys.trace) := by
  refine ⟨⟨⟨_, rfl⟩, by decide, by decide⟩, rfl, by decide⟩

/-- C9: for every value of `HOME` and however far the loop is unfolded,
every external invocation in the trace runs the binary at
`filepath.Join(HOME, "minikube/out/minikube")`, and its arguments are either
`start --driver=docker -p cloud-monitoring` or `delete -p cloud-monitoring`:
start and delete name the same binary and the same profile. -/
theorem every_invocation_names_the_binary (env : Env) (n : Nat) (path : String)
    (args : List String) (h : Event.run path args ∈ (main env n).sys.trace) :
    path = filepathJoin [env.home, "minikube/out/minikube"] ∧
      (args = ["start", "--driver=docker", "-p", "cloud-monitoring"] ∨
        args = ["delete", "-p", "cloud-monitoring"]) := by
  obtain ⟨k, rest, hk, hrest⟩ := toolView_main env n
  have hmem : Event.run path args ∈ toolView (main env n).sys.trace := by
    simp [toolView, h, Event.isRun]
  rw [hk] at hmem
  rcases List.mem_append.mp hmem with hm | hm
  · obtain ⟨l, hl, hin⟩ := List.mem_flatten.mp hm
    rw [List.eq_of_mem_replicate hl] at hin
    simp [startCall, deleteCall] at hin
    rcases hin with ⟨hp, ha⟩ | ⟨hp, ha⟩
    · exact ⟨hp, Or.inl ha⟩
    · exact ⟨hp, Or.inr ha⟩
  · rcases hrest with hr | hr
    · rw [hr] at hm; simp at hm
    · rw [hr] at hm
      simp [startCall] at hm
      exact ⟨hm.1, Or.inl hm.2⟩

theorem every_invocation_names_the_binary_witness :
    Event.run "/home/u/minikube/out/minikube" ["delete", "-p", "cloud-monitoring"] ∈
        (main quietEnv 1).sys.trace ∧
      "/home/u/minikube/out/minikube" = filepathJoin [quietEnv.home, "minikube/out/minikube"] :=
  ⟨by decide,
    (every_invocation_names_the_binary quietEnv 1 "/home/u/minikube/out/minikube"
      ["delete", "-p", "cloud-monitoring"] (by decide)).1⟩

/-- C10 as stated fails: in the run where every call succeeds, the delete
invocation is action 8 of the trace, the `Latency:` line action 9 and the
recorded sample action 10, so the sample is not recorded before the cleanup
invocation. -/
theorem record_before_cleanup_counterexample :
    (main quietEnv 1).sys.trace.findIdx Event.isDelete = 8 ∧
      (main quietEnv 1).sys.trace.findIdx Event.isPrintf = 9 ∧
      (main quietEnv 1).sys.trace.findIdx Event.isRecord = 10 ∧
      ¬ ((main quietEnv 1).sys.trace.findIdx Event.isRecord <
          (main quietEnv 1).sys.trace.findIdx Event.isDelete) := by
  decide

/-- C10 amended: in an iteration whose primary invocation succeeds the
actions are, in this order: the log line, a clock reading, the start
invocation, a clock reading, the delete invocation (with its log line when
it failed), and only then the `Latency:` line, the recorded sample and the
sleep.  The cleanup runs inside `minikubeStartTime`, before it returns. -/
theorem cleanup_precedes_print_and_record (env : Env) (tags : List (String × String))
    (s : Sys) (h : env.runErr s.nrun = none) :
    (loopBody env tags s).sys.trace =
      s.trace ++
        [.logPrint "Running minikube start....", .clock (env.now s.nclock),
          .run (filepathJoin [env.home, "minikube/out/minikube"])
            ["start", "--driver=docker", "-p", "cloud-monitoring"],
          .clock (env.now (s.nclock + 1)),
          .run (filepathJoin [env.home, "minikube/out/minikube"])
            ["delete", "-p", "cloud-monitoring"]] ++
        deleteLog (env.runErr (s.nrun + 1)) ++
        [.printf ("Latency: " ++
            formatF (seconds (env.now (s.nclock + 1) - env.now s.nclock)) ++ "\n"),
          .record tags "repl/start_time" (seconds (env.now (s.nclock + 1) - env.now s.nclock)),
          .sleep 30000000000] := by
  rw [loopBody_of_ok env tags s h]
  rfl

theorem cleanup_precedes_print_and_record_witness :
    quietEnv.runErr 0 = none ∧
      (loopBody quietEnv [] ⟨0, 0, []⟩).sys.trace =
        [.logPrint "Running minikube start....", .clock 0,
          .run "/home/u/minikube/out/minikube"
            ["start", "--driver=docker", "-p", "cloud-monitoring"],
          .clock 45000000000,
          .run "/home/u/minikube/out/minikube" ["delete", "-p", "cloud-monitoring"],
          .printf ("Latency: " ++ formatF (seconds (45000000000 - 0)) ++ "\n"),
          .record [] "repl/start_time" (seconds (45000000000 - 0)),
          .sleep 30000000000] :=
  ⟨rfl, cleanup_precedes_print_and_record quietEnv [] ⟨0, 0, []⟩ rfl⟩

end CloudCensus
